import Mathlib

/-!
Verification of the rasterisation core of `html5-typescript-3d-software-engine`.

The TypeScript sources are embedded shallowly:
* JavaScript numbers that the code keeps integral are modelled as `Int`/`Nat`;
  real-valued coordinates are modelled as `ℚ` (the arithmetic the code performs
  on them — `+ - * /`, `Math.floor`, `Math.ceil`, comparisons — is exact there);
* packed 32-bit colours are modelled as `Nat`, read unsigned: JavaScript's
  int32 results of `<< | &` are in bijection with `[0, 2^32)` and every
  consumer (`>> &` masking, `Uint32Array` stores) is invariant under that
  reading;
* the `Uint32Array` backbuffer is a `List Nat`; a store at an out-of-range
  index is dropped, exactly as JavaScript drops out-of-range indexed stores
  on typed arrays;
* `while` loops whose termination is a claim under scrutiny are embedded with
  explicit fuel and an `Option` result (`none` = fuel exhausted before the
  loop's own exit condition fired), `for` loops with an integer trip count are
  embedded by recursion on that count.
-/

attribute [local semireducible] Rat.add Rat.sub Rat.mul Rat.inv

/-! ### Helper lemmas about `Nat` bit operations -/

/-- Left commutativity of bitwise or, for permutation rewriting. -/
theorem lor_left_comm (x y z : Nat) : x ||| (y ||| z) = y ||| (x ||| z) := by
  rw [← Nat.or_assoc, Nat.or_comm x y, Nat.or_assoc]

/-- Distribution of a left shift over a bitwise or. -/
theorem shiftLeft_lor_distrib (x y k : Nat) :
    (x ||| y) <<< k = (x <<< k) ||| (y <<< k) := by
  apply Nat.eq_of_testBit_eq
  intro i
  simp [Nat.testBit_shiftLeft, Nat.testBit_or, Bool.and_or_distrib_left]

/-- Oring a `k`-shifted value with a value below `2^k` is addition. -/
theorem shiftLeft_lor_low (x y k : Nat) (h : y < 2 ^ k) :
    (x <<< k) ||| y = x * 2 ^ k + y := by
  rw [Nat.shiftLeft_eq, Nat.mul_comm, ← Nat.mul_add_lt_is_or h]

/-! ### Color4 (`color4.ts`)

The class `Color4` stores the four 8-bit channels, an optional cached packed
value and the caching flag.  Channel values are clamped on construction, so
they are represented as `Nat` (the clamp makes them non-negative).  The
mutating methods are embedded as functions returning the updated object;
`toAABBGGRR`/`toAARRGGBB` return the produced packed value together with the
updated object (they may populate the cache). -/

/-- Models `clamp` from `helper.ts`: `Math.min(max, Math.max(min, value))`. -/
def clamp (value mn mx : Int) : Int :=
  min mx (max mn value)

structure Color4 where
  alpha : Nat
  red : Nat
  green : Nat
  blue : Nat
  cache : Option Nat
  caching : Bool
deriving DecidableEq

/-- Models `new Color4({alpha, red, green, blue, caching})`: every channel is
clamped to `[0, 255]`, the cache starts empty.  (The TypeScript defaults are
`alpha = 255`, `red = green = blue = 0`, `caching = true`.) -/
def Color4.make (alpha red green blue : Int) (caching : Bool) : Color4 :=
  { alpha := (clamp alpha 0 255).toNat
    red := (clamp red 0 255).toNat
    green := (clamp green 0 255).toNat
    blue := (clamp blue 0 255).toNat
    cache := none
    caching := caching }

/-- Models the private `getAABBGGRR`:
`(alpha << 24) | (red << 0) | (green << 8) | (blue << 16)`. -/
def Color4.getAABBGGRR (c : Color4) : Nat :=
  (c.alpha <<< 24) ||| (c.red <<< 0) ||| (c.green <<< 8) ||| (c.blue <<< 16)

/-- Models the private `getAARRGGBB`:
`(alpha << 24) | (red << 16) | (green << 8) | (blue << 0)`. -/
def Color4.getAARRGGBB (c : Color4) : Nat :=
  (c.alpha <<< 24) ||| (c.red <<< 16) ||| (c.green <<< 8) ||| (c.blue <<< 0)

/-- Models `fromAABBGGRR(color)`: sets all four channels from the packed value
and stores the packed value in the cache slot. -/
def Color4.fromAABBGGRR (c : Color4) (color : Nat) : Color4 :=
  { alpha := (color >>> 24) &&& 0xff
    red := (color >>> 0) &&& 0xff
    green := (color >>> 8) &&& 0xff
    blue := (color >>> 16) &&& 0xff
    cache := some color
    caching := c.caching }

/-- Models `fromARRGGBB(color)`: sets all four channels from the packed value
(AARRGGBB channel order) and stores the packed value in the cache slot. -/
def Color4.fromARRGGBB (c : Color4) (color : Nat) : Color4 :=
  { alpha := (color >>> 24) &&& 0xff
    red := (color >>> 16) &&& 0xff
    green := (color >>> 8) &&& 0xff
    blue := (color >>> 0) &&& 0xff
    cache := some color
    caching := c.caching }

/-- Models `toAABBGGRR()`: `if (caching && cache === null) cache = getAABBGGRR();
return cache ?? getAABBGGRR();`.  Returns the value and the updated object. -/
def Color4.toAABBGGRR (c : Color4) : Nat × Color4 :=
  let c2 := if c.caching = true ∧ c.cache = none
    then { c with cache := some c.getAABBGGRR } else c
  (c2.cache.getD c2.getAABBGGRR, c2)

/-- Models `toAARRGGBB()`: `if (caching && cache === null) cache = getAARRGGBB();
return cache ?? getAARRGGBB();`.  Returns the value and the updated object. -/
def Color4.toAARRGGBB (c : Color4) : Nat × Color4 :=
  let c2 := if c.caching = true ∧ c.cache = none
    then { c with cache := some c.getAARRGGBB } else c
  (c2.cache.getD c2.getAARRGGBB, c2)

/-- Packing in AABBGGRR order of 8-bit channels, as plain arithmetic. -/
theorem Color4.getAABBGGRR_eq (c : Color4) (ha : c.alpha < 256) (hr : c.red < 256)
    (hg : c.green < 256) (hb : c.blue < 256) :
    c.getAABBGGRR = c.alpha * 2 ^ 24 + c.blue * 2 ^ 16 + c.green * 2 ^ 8 + c.red := by
  have h1 : (c.alpha <<< 8) ||| c.blue = c.alpha * 2 ^ 8 + c.blue :=
    shiftLeft_lor_low _ _ _ (by simpa using hb)
  have h2 : ((c.alpha * 2 ^ 8 + c.blue) <<< 8) ||| c.green
      = (c.alpha * 2 ^ 8 + c.blue) * 2 ^ 8 + c.green :=
    shiftLeft_lor_low _ _ _ (by simpa using hg)
  have h3 : (((c.alpha * 2 ^ 8 + c.blue) * 2 ^ 8 + c.green) <<< 8) ||| c.red
      = ((c.alpha * 2 ^ 8 + c.blue) * 2 ^ 8 + c.green) * 2 ^ 8 + c.red :=
    shiftLeft_lor_low _ _ _ (by simpa using hr)
  have e1 : c.getAABBGGRR
      = (((((c.alpha <<< 8) ||| c.blue) <<< 8) ||| c.green) <<< 8) ||| c.red := by
    unfold Color4.getAABBGGRR
    simp only [shiftLeft_lor_distrib, Nat.shiftLeft_shiftLeft, Nat.shiftLeft_zero,
      Nat.reduceAdd]
    simp [Nat.or_assoc, Nat.or_comm, lor_left_comm]
  rw [e1, h1, h2, h3]
  ring

/-- Packing in AARRGGBB order of 8-bit channels, as plain arithmetic. -/
theorem Color4.getAARRGGBB_eq (c : Color4) (ha : c.alpha < 256) (hr : c.red < 256)
    (hg : c.green < 256) (hb : c.blue < 256) :
    c.getAARRGGBB = c.alpha * 2 ^ 24 + c.red * 2 ^ 16 + c.green * 2 ^ 8 + c.blue := by
  have h1 : (c.alpha <<< 8) ||| c.red = c.alpha * 2 ^ 8 + c.red :=
    shiftLeft_lor_low _ _ _ (by simpa using hr)
  have h2 : ((c.alpha * 2 ^ 8 + c.red) <<< 8) ||| c.green
      = (c.alpha * 2 ^ 8 + c.red) * 2 ^ 8 + c.green :=
    shiftLeft_lor_low _ _ _ (by simpa using hg)
  have h3 : (((c.alpha * 2 ^ 8 + c.red) * 2 ^ 8 + c.green) <<< 8) ||| c.blue
      = ((c.alpha * 2 ^ 8 + c.red) * 2 ^ 8 + c.green) * 2 ^ 8 + c.blue :=
    shiftLeft_lor_low _ _ _ (by simpa using hb)
  have e1 : c.getAARRGGBB
      = (((((c.alpha <<< 8) ||| c.red) <<< 8) ||| c.green) <<< 8) ||| c.blue := by
    unfold Color4.getAARRGGBB
    simp only [shiftLeft_lor_distrib, Nat.shiftLeft_shiftLeft, Nat.shiftLeft_zero,
      Nat.reduceAdd]
  rw [e1, h1, h2, h3]
  ring

/-- Extraction of one byte, as plain arithmetic. -/
theorem shiftRight_and_ff (v n : Nat) : (v >>> n) &&& 0xff = v / 2 ^ n % 256 := by
  rw [Nat.shiftRight_eq_div_pow]
  have h : (0xff : Nat) = 2 ^ 8 - 1 := rfl
  rw [h, Nat.and_pow_two_sub_one_eq_mod]

/-- Channels of a freshly constructed color are below 256. -/
theorem Color4.make_lt (alpha red green blue : Int) (caching : Bool) :
    (Color4.make alpha red green blue caching).alpha < 256 ∧
    (Color4.make alpha red green blue caching).red < 256 ∧
    (Color4.make alpha red green blue caching).green < 256 ∧
    (Color4.make alpha red green blue caching).blue < 256 := by
  refine ⟨?_, ?_, ?_, ?_⟩ <;> simp only [Color4.make, clamp] <;> omega

/-- On a color whose cache is empty, `toAABBGGRR` returns the computed packing. -/
theorem Color4.toAABBGGRR_fst (c : Color4) (h : c.cache = none) :
    (c.toAABBGGRR).1 = c.getAABBGGRR := by
  unfold Color4.toAABBGGRR
  by_cases hc : c.caching = true <;> simp [h, hc]

/-- On a color whose cache is empty, `toAARRGGBB` returns the computed packing. -/
theorem Color4.toAARRGGBB_fst (c : Color4) (h : c.cache = none) :
    (c.toAARRGGBB).1 = c.getAARRGGBB := by
  unfold Color4.toAARRGGBB
  by_cases hc : c.caching = true <;> simp [h, hc]

/-- C1: the claim fails in the code and the code contradicts its own contract.
`Color4` keeps a single untagged cache slot; `fromARRGGBB` stores the AARRGGBB
packed value in it and `toAABBGGRR` returns any non-empty cache verbatim.  So
after `new Color4().fromARRGGBB(0xFF0000FF)` (channels alpha=255, red=0,
green=0, blue=255) the call `toAABBGGRR()` returns the cached AARRGGBB value
`0xFF0000FF`, although the AABBGGRR packing of the current channels — which
the claim (and the method's own documentation) requires — is `0xFFFF0000`. -/
theorem color4_toAABBGGRR_returns_stale_other_order_cache :
    (((Color4.make 255 0 0 0 true).fromARRGGBB 0xFF0000FF).toAABBGGRR).1 = 0xFF0000FF
    ∧ ((Color4.make 255 0 0 0 true).fromARRGGBB 0xFF0000FF).getAABBGGRR = 0xFFFF0000
    ∧ (0xFF0000FF : Nat) ≠ 0xFFFF0000 := by
  refine ⟨by decide, by decide, by decide⟩

/-- C10: packing a freshly constructed color (channels in [0,255]) to a 32-bit
value and ingesting that value back on a fresh color recovers the same four
channel values, independently in each channel order (AABBGGRR via
`toAABBGGRR`/`fromAABBGGRR` and AARRGGBB via `toAARRGGBB`/`fromARRGGBB`). -/
theorem color4_pack_unpack_roundtrip (al r g b : Int) (cf cg : Bool)
    (ha0 : 0 ≤ al) (ha1 : al ≤ 255) (hr0 : 0 ≤ r) (hr1 : r ≤ 255)
    (hg0 : 0 ≤ g) (hg1 : g ≤ 255) (hb0 : 0 ≤ b) (hb1 : b ≤ 255) :
    (((Color4.make 255 0 0 0 true).fromAABBGGRR
        (((Color4.make al r g b cf).toAABBGGRR).1)).alpha
        = (Color4.make al r g b cf).alpha
      ∧ ((Color4.make 255 0 0 0 true).fromAABBGGRR
          (((Color4.make al r g b cf).toAABBGGRR).1)).red
        = (Color4.make al r g b cf).red
      ∧ ((Color4.make 255 0 0 0 true).fromAABBGGRR
          (((Color4.make al r g b cf).toAABBGGRR).1)).green
        = (Color4.make al r g b cf).green
      ∧ ((Color4.make 255 0 0 0 true).fromAABBGGRR
          (((Color4.make al r g b cf).toAABBGGRR).1)).blue
        = (Color4.make al r g b cf).blue)
    ∧ (((Color4.make 255 0 0 0 true).fromARRGGBB
        (((Color4.make al r g b cg).toAARRGGBB).1)).alpha
        = (Color4.make al r g b cg).alpha
      ∧ ((Color4.make 255 0 0 0 true).fromARRGGBB
          (((Color4.make al r g b cg).toAARRGGBB).1)).red
        = (Color4.make al r g b cg).red
      ∧ ((Color4.make 255 0 0 0 true).fromARRGGBB
          (((Color4.make al r g b cg).toAARRGGBB).1)).green
        = (Color4.make al r g b cg).green
      ∧ ((Color4.make 255 0 0 0 true).fromARRGGBB
          (((Color4.make al r g b cg).toAARRGGBB).1)).blue
        = (Color4.make al r g b cg).blue) := by
  obtain ⟨hA, hR, hG, hB⟩ := Color4.make_lt al r g b cf
  obtain ⟨hA2, hR2, hG2, hB2⟩ := Color4.make_lt al r g b cg
  constructor
  · have hv : ((Color4.make al r g b cf).toAABBGGRR).1
        = (Color4.make al r g b cf).alpha * 2 ^ 24
          + (Color4.make al r g b cf).blue * 2 ^ 16
          + (Color4.make al r g b cf).green * 2 ^ 8
          + (Color4.make al r g b cf).red := by
      rw [Color4.toAABBGGRR_fst _ rfl, Color4.getAABBGGRR_eq _ hA hR hG hB]
    refine ⟨?_, ?_, ?_, ?_⟩ <;>
      simp only [Color4.fromAABBGGRR, hv, shiftRight_and_ff] <;> omega
  · have hv : ((Color4.make al r g b cg).toAARRGGBB).1
        = (Color4.make al r g b cg).alpha * 2 ^ 24
          + (Color4.make al r g b cg).red * 2 ^ 16
          + (Color4.make al r g b cg).green * 2 ^ 8
          + (Color4.make al r g b cg).blue := by
      rw [Color4.toAARRGGBB_fst _ rfl, Color4.getAARRGGBB_eq _ hA2 hR2 hG2 hB2]
    refine ⟨?_, ?_, ?_, ?_⟩ <;>
      simp only [Color4.fromARRGGBB, hv, shiftRight_and_ff] <;> omega

/-- C10 witness: the roundtrip at channels (10, 20, 30, 40). -/
theorem color4_pack_unpack_roundtrip_witness :
    ((Color4.make 255 0 0 0 true).fromAABBGGRR
        (((Color4.make 10 20 30 40 true).toAABBGGRR).1)).red
      = (Color4.make 10 20 30 40 true).red := by
  exact (color4_pack_unpack_roundtrip 10 20 30 40 true true (by decide) (by decide)
    (by decide) (by decide) (by decide) (by decide) (by decide) (by decide)).1.2.1

/-! ### Clipping (`clipping.ts`)

The class stores its four bounds in an `Int16Array`; construction therefore
wraps each bound to a signed 16-bit value.  The model names the four slots of
that array by the getters (`minX` = `bounds[0]`, `minY` = `bounds[1]`,
`maxX` = `bounds[2]`, `maxY` = `bounds[3]`). -/

/-- Conversion of an integer to a signed 16-bit value, as an `Int16Array`
store performs it. -/
def toInt16 (v : Int) : Int :=
  (v + 32768) % 65536 - 32768

structure Clipping where
  minX : Int
  minY : Int
  maxX : Int
  maxY : Int
deriving DecidableEq

/-- Models `new Clipping(minX, minY, maxX, maxY)` (an `Int16Array` store). -/
def Clipping.make (minX minY maxX maxY : Int) : Clipping :=
  { minX := toInt16 minX, minY := toInt16 minY
    maxX := toInt16 maxX, maxY := toInt16 maxY }

/-- Models `inside(x, y)`:
`x >= bounds[0] && x <= bounds[2] && y >= bounds[1] && y <= bounds[3]`. -/
def Clipping.inside (c : Clipping) (x y : Int) : Bool :=
  decide (x ≥ c.minX) && decide (x ≤ c.maxX) && decide (y ≥ c.minY) && decide (y ≤ c.maxY)

/-- Models `outside(x, y)`:
`x < bounds[0] || x >= bounds[2] || y < bounds[1] || y >= bounds[3]`. -/
def Clipping.outside (c : Clipping) (x y : Int) : Bool :=
  decide (x < c.minX) || decide (x ≥ c.maxX) || decide (y < c.minY) || decide (y ≥ c.maxY)

/-- C9: `inside` is the inclusive-max containment test, `outside` is the
exclusive-max escape test, and consequently the two are not logical negations
of each other: on the boundary line `x = maxX` (within the other bounds) both
report `true`, as the concrete rectangle `(0,0,100,100)` at `(100, 50)`
shows. -/
theorem clipping_inside_outside_conventions (c : Clipping) (x y : Int) :
    (c.inside x y = true ↔
      (c.minX ≤ x ∧ x ≤ c.maxX ∧ c.minY ≤ y ∧ y ≤ c.maxY))
    ∧ (c.outside x y = true ↔
      (x < c.minX ∨ c.maxX ≤ x ∨ y < c.minY ∨ c.maxY ≤ y))
    ∧ (Clipping.make 0 0 100 100).inside 100 50 = true
    ∧ (Clipping.make 0 0 100 100).outside 100 50 = true := by
  refine ⟨?_, ?_, by decide, by decide⟩
  · simp [Clipping.inside, and_assoc]
  · simp [Clipping.outside, or_assoc]

/-! ### Blitter and the pixel-write primitive (`blitter.ts`, `pixel.ts`)

Only the parts of `Blitter` that the drawing primitives consult are modelled:
the buffer dimensions and the clipping region (`create` floors the requested
dimensions and builds the clip rectangle to match them).  The backbuffer is a
`List Nat` of packed pixels; a store with an out-of-range linear index is
dropped, as JavaScript drops out-of-range indexed stores on a `Uint32Array`,
and a stored value is wrapped to 32 bits. -/

structure Blitter where
  width : Nat
  height : Nat
  clipping : Clipping

/-- Models `blitter.create({width, height})` for integral dimensions:
the clipping region is `new Clipping(0, 0, width, height)`. -/
def Blitter.create (width height : Nat) : Blitter :=
  { width := width, height := height
    clipping := Clipping.make 0 0 width height }

/-- Models the statement `backbuffer[index] = value` on a `Uint32Array`:
out-of-range indices are silently dropped, stored values are wrapped. -/
def writeU32 (buf : List Nat) (index : Int) (value : Nat) : List Nat :=
  if 0 ≤ index ∧ index.toNat < buf.length
    then buf.set index.toNat (value % 2 ^ 32) else buf

/-- Models `setPixel(blitter, x, y, color, clip, backbuffer)` from `pixel.ts`:
when `clip` is requested, coordinates outside the clipping region are
rejected; otherwise the packed color is stored at `y * width + x`. -/
def setPixel (blitter : Blitter) (x y : Int) (color : Color4) (clip : Bool)
    (backbuffer : List Nat) : List Nat :=
  if clip ∧ (x < blitter.clipping.minX ∨ x ≥ blitter.clipping.maxX
      ∨ y < blitter.clipping.minY ∨ y ≥ blitter.clipping.maxY)
    then backbuffer
    else writeU32 backbuffer (y * blitter.width + x) (color.toAABBGGRR).1

/-- C2 counterexample: with `clip = false` the primitive performs no
coordinate bounds check at all; on a 10×10 buffer the out-of-bounds write at
`(-1, 5)` lands on the in-range linear index `5*10 + (-1) = 49` — the cell
`(9, 4)` — and the backbuffer is changed, contradicting the claim that every
out-of-range write is dropped with every cell left unchanged. -/
theorem setPixel_noclip_wraps_counterexample :
    setPixel (Blitter.create 10 10) (-1) 5 (Color4.make 255 255 0 0 true) false
        (List.replicate 100 0)
      ≠ List.replicate 100 0
    ∧ (setPixel (Blitter.create 10 10) (-1) 5 (Color4.make 255 255 0 0 true) false
        (List.replicate 100 0)).getD 49 0 = 0xFF0000FF := by
  refine ⟨by decide, by decide⟩

/-- C2 amended: with `clip = false` the only protection is the typed array's
own linear bounds check — a write whose linear index `y*width + x` falls
outside `[0, length)` is dropped and the whole backbuffer is unchanged.
(Out-of-range coordinates whose linear index is nevertheless in range write
that cell instead, as the counterexample shows.) -/
theorem setPixel_noclip_linear_oob_dropped (blitter : Blitter) (x y : Int)
    (color : Color4) (backbuffer : List Nat)
    (h : y * blitter.width + x < 0 ∨ (backbuffer.length : Int) ≤ y * blitter.width + x) :
    setPixel blitter x y color false backbuffer = backbuffer := by
  unfold setPixel writeU32
  rw [if_neg (by simp)]
  rw [if_neg]
  omega

/-- C2 witness: the amended theorem at `(5, 20)` on a 10×10 buffer
(linear index 205, beyond the buffer's 100 cells). -/
theorem setPixel_noclip_linear_oob_dropped_witness :
    setPixel (Blitter.create 10 10) 5 20 (Color4.make 255 255 0 0 true) false
        (List.replicate 100 0)
      = List.replicate 100 0 := by
  exact setPixel_noclip_linear_oob_dropped (Blitter.create 10 10) 5 20
    (Color4.make 255 255 0 0 true) (List.replicate 100 0) (Or.inr (by decide))

/-! ### Liang–Barsky line clipper (`clip.ts`)

Points are pairs of rationals.  The inner closure `testEdge` mutates the
captured interval `[tMin, tMax]`; it is embedded as a function from the
current interval to `Option` of the updated interval (`none` = the segment is
rejected), and `clipLineLiangBarsky` chains the four edge tests with
`Option.bind`, which short-circuits exactly as the `&&` chain does. -/

/-- Models `testEdge(delta, distance)` acting on the interval `[tMin, tMax]`. -/
def testEdge (delta distance tMin tMax : ℚ) : Option (ℚ × ℚ) :=
  if delta = 0 then
    if distance ≥ 0 then some (tMin, tMax) else none
  else
    if delta < 0 then
      if distance / delta > tMax then none
      else if distance / delta > tMin then some (distance / delta, tMax)
      else some (tMin, tMax)
    else
      if distance / delta < tMin then none
      else if distance / delta < tMax then some (tMin, distance / delta)
      else some (tMin, tMax)

/-- Models `clipLineLiangBarsky(a, b, clipping)`: the four edges (left, right,
top, bottom) narrow `[0, 1]`; the right and bottom edges use `max - 1`
because the rectangle's max bounds are exclusive.  Returns the clipped
segment, or `none` when the segment lies entirely outside. -/
def clipLineLiangBarsky (a b : ℚ × ℚ) (clipping : Clipping) :
    Option ((ℚ × ℚ) × (ℚ × ℚ)) :=
  let deltaX := b.1 - a.1
  let deltaY := b.2 - a.2
  ((((testEdge (-deltaX) (a.1 - (clipping.minX : ℚ)) 0 1).bind fun tm =>
      testEdge deltaX (((clipping.maxX : ℚ) - 1) - a.1) tm.1 tm.2).bind fun tm =>
      testEdge (-deltaY) (a.2 - (clipping.minY : ℚ)) tm.1 tm.2).bind fun tm =>
      testEdge deltaY (((clipping.maxY : ℚ) - 1) - a.2) tm.1 tm.2).map fun tm =>
    ((a.1 + tm.1 * deltaX, a.2 + tm.1 * deltaY),
     (a.1 + tm.2 * deltaX, a.2 + tm.2 * deltaY))

/-- C5: clipping `(-10,5) → (110,5)` against the rectangle `(0,0,100,100)`
returns the endpoints `(0,5)` and `(99,5)`, and clipping `(5,-10) → (5,110)`
returns `(5,0)` and `(5,99)` — both the right and the bottom constraint are
applied at `max - 1` because the rectangle's max bounds are exclusive. -/
theorem clipLine_exclusive_max_examples :
    clipLineLiangBarsky (-10, 5) (110, 5) (Clipping.make 0 0 100 100)
      = some ((0, 5), (99, 5))
    ∧ clipLineLiangBarsky (5, -10) (5, 110) (Clipping.make 0 0 100 100)
      = some ((5, 0), (5, 99)) := by
  refine ⟨by decide, by decide⟩

/-- Shape of a successful `testEdge`: the interval only shrinks, an interval
that was proper stays proper, and every parameter in the returned interval
satisfies the edge's half-plane constraint `t * delta ≤ distance`. -/
theorem testEdge_sound {delta distance tMin tMax tMin2 tMax2 : ℚ}
    (h : testEdge delta distance tMin tMax = some (tMin2, tMax2)) :
    tMin ≤ tMin2 ∧ tMax2 ≤ tMax ∧ (tMin ≤ tMax → tMin2 ≤ tMax2) ∧
      ∀ t : ℚ, tMin2 ≤ t → t ≤ tMax2 → t * delta ≤ distance := by
  unfold testEdge at h
  split_ifs at h with h0 hge hneg hgtMax hgtMin hltMin hltMax <;>
    obtain ⟨rfl, rfl⟩ := Prod.mk.injEq .. ▸ Option.some.inj h
  · exact ⟨le_refl _, le_refl _, fun hmm => hmm, fun t _ _ => by
      rw [h0]; simpa using hge⟩
  · refine ⟨le_of_lt hgtMin, le_refl _, fun hmm => not_lt.mp hgtMax, ?_⟩
    intro t ht _
    have hd : delta ≤ 0 := le_of_lt hneg
    calc t * delta ≤ (distance / delta) * delta :=
          mul_le_mul_of_nonpos_right ht hd
      _ = distance := div_mul_cancel₀ _ (ne_of_lt hneg)
  · refine ⟨le_refl _, le_refl _, fun hmm => hmm, ?_⟩
    intro t ht _
    have htd : distance / delta ≤ t := le_trans (not_lt.mp hgtMin) ht
    calc t * delta ≤ (distance / delta) * delta :=
          mul_le_mul_of_nonpos_right htd (le_of_lt hneg)
      _ = distance := div_mul_cancel₀ _ (ne_of_lt hneg)
  · have hpos : 0 < delta := lt_of_le_of_ne (not_lt.mp hneg) (Ne.symm h0)
    refine ⟨le_refl _, le_of_lt hltMax, fun hmm => not_lt.mp hltMin, ?_⟩
    intro t _ ht
    calc t * delta ≤ (distance / delta) * delta :=
          mul_le_mul_of_nonneg_right ht (le_of_lt hpos)
      _ = distance := div_mul_cancel₀ _ (ne_of_gt hpos)
  · have hpos : 0 < delta := lt_of_le_of_ne (not_lt.mp hneg) (Ne.symm h0)
    refine ⟨le_refl _, le_refl _, fun hmm => hmm, ?_⟩
    intro t _ ht
    have htd : t ≤ distance / delta := le_trans ht (not_lt.mp hltMax)
    calc t * delta ≤ (distance / delta) * delta :=
          mul_le_mul_of_nonneg_right htd (le_of_lt hpos)
      _ = distance := div_mul_cancel₀ _ (ne_of_gt hpos)

/-- Soundness of the clipper: a successful clip exhibits a parameter
`t ∈ [0, 1]` whose point on the segment satisfies all four (max−1 adjusted)
half-plane constraints — that point lies inside the clip rectangle. -/
theorem clipLine_some_sound (a b : ℚ × ℚ) (c : Clipping) (r : (ℚ × ℚ) × (ℚ × ℚ))
    (h : clipLineLiangBarsky a b c = some r) :
    ∃ t : ℚ, 0 ≤ t ∧ t ≤ 1
      ∧ (c.minX : ℚ) ≤ a.1 + t * (b.1 - a.1)
      ∧ a.1 + t * (b.1 - a.1) ≤ (c.maxX : ℚ) - 1
      ∧ (c.minY : ℚ) ≤ a.2 + t * (b.2 - a.2)
      ∧ a.2 + t * (b.2 - a.2) ≤ (c.maxY : ℚ) - 1 := by
  unfold clipLineLiangBarsky at h
  rw [Option.map_eq_some'] at h
  obtain ⟨tm4, h4, hr⟩ := h
  rw [Option.bind_eq_some] at h4
  obtain ⟨tm3, h3, h4⟩ := h4
  rw [Option.bind_eq_some] at h3
  obtain ⟨tm2, h2, h3⟩ := h3
  rw [Option.bind_eq_some] at h2
  obtain ⟨tm1, h1, h2⟩ := h2
  obtain ⟨t1min, t1max⟩ := tm1
  obtain ⟨t2min, t2max⟩ := tm2
  obtain ⟨t3min, t3max⟩ := tm3
  obtain ⟨t4min, t4max⟩ := tm4
  obtain ⟨g1min, g1max, g1ok, g1con⟩ := testEdge_sound h1
  obtain ⟨g2min, g2max, g2ok, g2con⟩ := testEdge_sound h2
  obtain ⟨g3min, g3max, g3ok, g3con⟩ := testEdge_sound h3
  obtain ⟨g4min, g4max, g4ok, g4con⟩ := testEdge_sound h4
  have hproper : t4min ≤ t4max :=
    g4ok (g3ok (g2ok (g1ok (by norm_num))))
  refine ⟨t4min, ?_, ?_, ?_, ?_, ?_, ?_⟩
  · linarith
  · linarith
  · have := g1con t4min (by linarith) (by linarith)
    nlinarith
  · have := g2con t4min (by linarith) (by linarith)
    nlinarith
  · have := g3con t4min (by linarith) (by linarith)
    nlinarith
  · have := g4con t4min (by linarith) (by linarith)
    nlinarith

/-- C6: a segment lying entirely outside the clip rectangle (no point of it,
for any parameter `t ∈ [0, 1]`, is inside `[minX, maxX) × [minY, maxY)`)
makes `clipLineLiangBarsky` return the explicit no-result value `none` —
never an exception and never a degenerate segment. -/
theorem clipLine_fully_outside_returns_none (a b : ℚ × ℚ) (c : Clipping)
    (h : ∀ t : ℚ, 0 ≤ t → t ≤ 1 →
      ¬((c.minX : ℚ) ≤ a.1 + t * (b.1 - a.1) ∧ a.1 + t * (b.1 - a.1) < (c.maxX : ℚ)
        ∧ (c.minY : ℚ) ≤ a.2 + t * (b.2 - a.2) ∧ a.2 + t * (b.2 - a.2) < (c.maxY : ℚ))) :
    clipLineLiangBarsky a b c = none := by
  cases hres : clipLineLiangBarsky a b c with
  | none => rfl
  | some r =>
    exfalso
    obtain ⟨t, ht0, ht1, hx1, hx2, hy1, hy2⟩ := clipLine_some_sound a b c r hres
    exact h t ht0 ht1 ⟨hx1, by linarith, hy1, by linarith⟩

/-- C6 witness: the segment `(-20,-20) → (-10,-10)` lies entirely left of
(and above) the rectangle `(0,0,100,100)`, and the clipper returns `none`. -/
theorem clipLine_fully_outside_returns_none_witness :
    clipLineLiangBarsky (-20, -20) (-10, -10) (Clipping.make 0 0 100 100) = none := by
  apply clipLine_fully_outside_returns_none
  intro t ht0 ht1 hcon
  obtain ⟨hx, _⟩ := hcon
  have hminX : ((Clipping.make 0 0 100 100).minX : ℚ) = 0 := by
    norm_num [Clipping.make, toInt16]
  rw [hminX] at hx
  norm_num at hx
  nlinarith

/-! ### Point2D and Triangle2D (`point2d.ts`, `triangle2d.ts`)

Coordinates are real-valued; they are modelled as rationals.  `rasterOrder`
performs three conditional swaps sorting by `y` followed by the two flat-edge
`x` fix-ups, exactly as the source does. -/

structure Point2D where
  x : ℚ
  y : ℚ
deriving DecidableEq

structure Triangle2D where
  a : Point2D
  b : Point2D
  c : Point2D
deriving DecidableEq

/-- Models `if (v1.y < v0.y) { [v0, v1] = [v1, v0]; }`. -/
def sortSwap01 (v : Point2D × Point2D × Point2D) : Point2D × Point2D × Point2D :=
  if v.2.1.y < v.1.y then (v.2.1, v.1, v.2.2) else v

/-- Models `if (v2.y < v1.y) { [v1, v2] = [v2, v1]; }`. -/
def sortSwap12 (v : Point2D × Point2D × Point2D) : Point2D × Point2D × Point2D :=
  if v.2.2.y < v.2.1.y then (v.1, v.2.2, v.2.1) else v

/-- Models `if (v0.y === v1.y && v1.x < v0.x) { [v0, v1] = [v1, v0]; }`
(the sequential `&&` as nested conditionals). -/
def flatSwap01 (v : Point2D × Point2D × Point2D) : Point2D × Point2D × Point2D :=
  if v.1.y = v.2.1.y then
    if v.2.1.x < v.1.x then (v.2.1, v.1, v.2.2) else v
  else v

/-- Models `if (v1.y === v2.y && v2.x < v1.x) { [v1, v2] = [v2, v1]; }`
(the sequential `&&` as nested conditionals). -/
def flatSwap12 (v : Point2D × Point2D × Point2D) : Point2D × Point2D × Point2D :=
  if v.2.1.y = v.2.2.y then
    if v.2.2.x < v.2.1.x then (v.1, v.2.2, v.2.1) else v
  else v

/-- Models `Triangle2D.rasterOrder()`: sort `[a, b, c]` by ascending `y`
(three conditional swaps), then fix the winding order of a flat top and of a
flat bottom. -/
def Triangle2D.rasterOrder (t : Triangle2D) : Point2D × Point2D × Point2D :=
  flatSwap12 (flatSwap01 (sortSwap01 (sortSwap12 (sortSwap01 (t.a, t.b, t.c)))))

/-- Non-decreasing `y` over a vertex triple. -/
def sortedY (v : Point2D × Point2D × Point2D) : Prop :=
  v.1.y ≤ v.2.1.y ∧ v.2.1.y ≤ v.2.2.y

/-- The three conditional swaps sort the triple by `y`. -/
theorem sort3_sortedY (v : Point2D × Point2D × Point2D) :
    sortedY (sortSwap01 (sortSwap12 (sortSwap01 v))) := by
  obtain ⟨p, q, r⟩ := v
  unfold sortSwap01 sortSwap12 sortedY
  split_ifs <;> dsimp only at * <;> constructor <;> linarith

/-- The flat-top fix-up swaps only vertices of equal `y`, keeping order. -/
theorem flatSwap01_sortedY (w : Point2D × Point2D × Point2D) (h : sortedY w) :
    sortedY (flatSwap01 w) := by
  obtain ⟨p, q, r⟩ := w
  obtain ⟨h1, h2⟩ := h
  unfold flatSwap01 sortedY
  split_ifs <;> dsimp only at * <;> constructor <;> linarith

/-- The flat-bottom fix-up swaps only vertices of equal `y`, keeping order. -/
theorem flatSwap12_sortedY (w : Point2D × Point2D × Point2D) (h : sortedY w) :
    sortedY (flatSwap12 w) := by
  obtain ⟨p, q, r⟩ := w
  obtain ⟨h1, h2⟩ := h
  unfold flatSwap12 sortedY
  split_ifs <;> dsimp only at * <;> constructor <;> linarith

/-- After the flat-bottom fix-up, a flat bottom pair is ascending in `x`. -/
theorem flatSwap12_bottom (w : Point2D × Point2D × Point2D)
    (h : (flatSwap12 w).2.1.y = (flatSwap12 w).2.2.y) :
    (flatSwap12 w).2.1.x ≤ (flatSwap12 w).2.2.x := by
  obtain ⟨p, q, r⟩ := w
  unfold flatSwap12 at *
  split_ifs at * <;> dsimp only at * <;> first | linarith | exact absurd h (by assumption)

/-- After the flat-top fix-up, a flat top pair is ascending in `x`. -/
theorem flatSwap01_top (w : Point2D × Point2D × Point2D)
    (h : (flatSwap01 w).1.y = (flatSwap01 w).2.1.y) :
    (flatSwap01 w).1.x ≤ (flatSwap01 w).2.1.x := by
  obtain ⟨p, q, r⟩ := w
  unfold flatSwap01 at *
  split_ifs at * <;> dsimp only at * <;> first | linarith | exact absurd h (by assumption)

/-- When the bottom two vertices differ in `y`, the flat-bottom fix-up is the
identity. -/
theorem flatSwap12_id (w : Point2D × Point2D × Point2D)
    (h : w.2.1.y ≠ w.2.2.y) : flatSwap12 w = w := by
  unfold flatSwap12
  rw [if_neg h]

/-- Full behaviour of `rasterOrder`: `y` non-decreasing; a flat bottom is
ordered by ascending `x`; a flat top is ordered by ascending `x` unless all
three vertices share one `y` (then the last fix-up may break the first). -/
theorem rasterOrder_spec (t : Triangle2D) :
    ((t.rasterOrder).1.y ≤ (t.rasterOrder).2.1.y
      ∧ (t.rasterOrder).2.1.y ≤ (t.rasterOrder).2.2.y)
    ∧ ((t.rasterOrder).2.1.y = (t.rasterOrder).2.2.y →
        (t.rasterOrder).2.1.x ≤ (t.rasterOrder).2.2.x)
    ∧ ((t.rasterOrder).1.y = (t.rasterOrder).2.1.y →
        (t.rasterOrder).2.1.y < (t.rasterOrder).2.2.y →
        (t.rasterOrder).1.x ≤ (t.rasterOrder).2.1.x) := by
  have hs : sortedY (sortSwap01 (sortSwap12 (sortSwap01 (t.a, t.b, t.c)))) :=
    sort3_sortedY _
  have hs1 := flatSwap01_sortedY _ hs
  have hs2 := flatSwap12_sortedY _ hs1
  refine ⟨hs2, fun h => flatSwap12_bottom _ h, fun h1 h2 => ?_⟩
  by_cases h12 : (flatSwap01 (sortSwap01 (sortSwap12 (sortSwap01 (t.a, t.b, t.c))))).2.1.y
      = (flatSwap01 (sortSwap01 (sortSwap12 (sortSwap01 (t.a, t.b, t.c))))).2.2.y
  · exfalso
    have hb : (t.rasterOrder).2.1.y = (t.rasterOrder).2.2.y := by
      unfold Triangle2D.rasterOrder
      generalize hw : flatSwap01 (sortSwap01 (sortSwap12 (sortSwap01 (t.a, t.b, t.c)))) = w at h12
      obtain ⟨p, q, r⟩ := w
      unfold flatSwap12
      split_ifs <;> dsimp only at * <;> linarith
    exact absurd hb (ne_of_lt h2)
  · have hid := flatSwap12_id _ h12
    have hr : t.rasterOrder
        = flatSwap01 (sortSwap01 (sortSwap12 (sortSwap01 (t.a, t.b, t.c)))) := by
      unfold Triangle2D.rasterOrder
      rw [hid]
    rw [hr] at h1 ⊢
    exact flatSwap01_top _ h1

/-- Vertices of `rasterOrder` are the triangle's vertices: any property of
all three input vertices holds of all three output vertices. -/
theorem rasterOrder_pred (t : Triangle2D) (P : Point2D → Prop)
    (ha : P t.a) (hb : P t.b) (hc : P t.c) :
    P (t.rasterOrder).1 ∧ P (t.rasterOrder).2.1 ∧ P (t.rasterOrder).2.2 := by
  have step1 : ∀ w : Point2D × Point2D × Point2D,
      P w.1 ∧ P w.2.1 ∧ P w.2.2 →
        P (sortSwap01 w).1 ∧ P (sortSwap01 w).2.1 ∧ P (sortSwap01 w).2.2 := by
    rintro ⟨p, q, r⟩ ⟨hp, hq, hr⟩
    unfold sortSwap01
    split_ifs <;> exact ⟨by assumption, by assumption, by assumption⟩
  have step2 : ∀ w : Point2D × Point2D × Point2D,
      P w.1 ∧ P w.2.1 ∧ P w.2.2 →
        P (sortSwap12 w).1 ∧ P (sortSwap12 w).2.1 ∧ P (sortSwap12 w).2.2 := by
    rintro ⟨p, q, r⟩ ⟨hp, hq, hr⟩
    unfold sortSwap12
    split_ifs <;> exact ⟨by assumption, by assumption, by assumption⟩
  have step3 : ∀ w : Point2D × Point2D × Point2D,
      P w.1 ∧ P w.2.1 ∧ P w.2.2 →
        P (flatSwap01 w).1 ∧ P (flatSwap01 w).2.1 ∧ P (flatSwap01 w).2.2 := by
    rintro ⟨p, q, r⟩ ⟨hp, hq, hr⟩
    unfold flatSwap01
    split_ifs <;> exact ⟨by assumption, by assumption, by assumption⟩
  have step4 : ∀ w : Point2D × Point2D × Point2D,
      P w.1 ∧ P w.2.1 ∧ P w.2.2 →
        P (flatSwap12 w).1 ∧ P (flatSwap12 w).2.1 ∧ P (flatSwap12 w).2.2 := by
    rintro ⟨p, q, r⟩ ⟨hp, hq, hr⟩
    unfold flatSwap12
    split_ifs <;> exact ⟨by assumption, by assumption, by assumption⟩
  exact step4 _ (step3 _ (step1 _ (step2 _ (step1 _ ⟨ha, hb, hc⟩))))

/-- C4 counterexample: for the degenerate triangle `(5,0), (3,0), (1,0)` (all
three vertices share the minimum and maximum `y`), `rasterOrder` returns the
first pair in descending `x` (`v0.x = 3 > v1.x = 1`), so the claim that a flat
pair sharing the minimum `y` is always ordered by ascending `x` is false. -/
theorem rasterOrder_flat_pair_counterexample :
    ((Triangle2D.mk ⟨5, 0⟩ ⟨3, 0⟩ ⟨1, 0⟩).rasterOrder).1.y
      = ((Triangle2D.mk ⟨5, 0⟩ ⟨3, 0⟩ ⟨1, 0⟩).rasterOrder).2.1.y
    ∧ ((Triangle2D.mk ⟨5, 0⟩ ⟨3, 0⟩ ⟨1, 0⟩).rasterOrder).2.1.x
      < ((Triangle2D.mk ⟨5, 0⟩ ⟨3, 0⟩ ⟨1, 0⟩).rasterOrder).1.x := by
  refine ⟨by decide, by decide⟩

/-- C4 amended: `rasterOrder` always yields `v0.y ≤ v1.y ≤ v2.y`; a flat
bottom pair (`v1.y = v2.y`) is always ordered by ascending `x`; a flat top
pair (`v0.y = v1.y`) is ordered by ascending `x` whenever the triangle is not
fully degenerate (i.e. `v1.y < v2.y`) — in the all-equal-`y` case the bottom
fix-up can break the top pair's order, as the counterexample shows. -/
theorem rasterOrder_sorted_flat_pairs (t : Triangle2D) :
    ((t.rasterOrder).1.y ≤ (t.rasterOrder).2.1.y
      ∧ (t.rasterOrder).2.1.y ≤ (t.rasterOrder).2.2.y)
    ∧ ((t.rasterOrder).2.1.y = (t.rasterOrder).2.2.y →
        (t.rasterOrder).2.1.x ≤ (t.rasterOrder).2.2.x)
    ∧ ((t.rasterOrder).1.y = (t.rasterOrder).2.1.y →
        (t.rasterOrder).2.1.y < (t.rasterOrder).2.2.y →
        (t.rasterOrder).1.x ≤ (t.rasterOrder).2.1.x) := rasterOrder_spec t

/-- C4 witness: the amended theorem applied to the flat-bottom triangle
`(0,0), (5,3), (1,3)`, whose bottom pair is reordered to ascending `x`. -/
theorem rasterOrder_sorted_flat_pairs_witness :
    ((Triangle2D.mk ⟨0, 0⟩ ⟨5, 3⟩ ⟨1, 3⟩).rasterOrder).2.1.x
      ≤ ((Triangle2D.mk ⟨0, 0⟩ ⟨5, 3⟩ ⟨1, 3⟩).rasterOrder).2.2.x := by
  exact (rasterOrder_sorted_flat_pairs (Triangle2D.mk ⟨0, 0⟩ ⟨5, 3⟩ ⟨1, 3⟩)).2.1
    (by decide)

/-! ### Line rasterisers (`line.ts`)

Both rasterisers write through `blitter.setPixel`, which floors its
coordinates; the embeddings record the trace of floored pixel positions
written.  The DDA `for` loop and the Bresenham `while (true)` loop are
embedded with explicit fuel returning `none` when the fuel is exhausted
before the loop's own exit condition fires — so a `some` result with some
fuel is exactly termination of the source loop. -/

/-- Models the DDA loop `for (i = 0; i <= steps; i++) { setPixel(x, y); x +=
stepX; y += stepY; }`, recording the floored pixel positions written. -/
def ddaLoop (steps stepX stepY : ℚ) : Nat → Nat → ℚ → ℚ → Option (List (Int × Int))
  | 0, i, _, _ => if (i : ℚ) ≤ steps then none else some []
  | fuel + 1, i, x, y =>
    if (i : ℚ) ≤ steps then
      (ddaLoop steps stepX stepY fuel (i + 1) (x + stepX) (y + stepY)).map
        (fun l => (⌊x⌋, ⌊y⌋) :: l)
    else some []

/-- Models `drawLineDDA(blitter, a, b, color, clip=false, backbuffer)` (the
drawing core, after any clipping pre-pass): `steps = max(|Δx|, |Δy|)`; a
zero-length segment plots the single pixel at `a`; otherwise one pixel per
integer step, accumulating `x += Δx/steps`, `y += Δy/steps`. -/
def drawLineDDA (fuel : Nat) (a b : ℚ × ℚ) : Option (List (Int × Int)) :=
  if max |b.1 - a.1| |b.2 - a.2| = 0 then some [(⌊a.1⌋, ⌊a.2⌋)]
  else
    ddaLoop (max |b.1 - a.1| |b.2 - a.2|)
      ((b.1 - a.1) / max |b.1 - a.1| |b.2 - a.2|)
      ((b.2 - a.2) / max |b.1 - a.1| |b.2 - a.2|)
      fuel 0 a.1 a.2

/-- Models the Bresenham `while (true)` loop: plot, exit when the end point is
reached, else step `x` when `2·error > -deltaY` (adjusting the error by
`-deltaY`) and step `y` when `2·error < deltaX` (adjusting by `+deltaX`). -/
def bresenhamLoop (x1 y1 deltaX deltaY stepX stepY : Int) :
    Nat → Int → Int → Int → Option (List (Int × Int))
  | 0, _, _, _ => none
  | fuel + 1, x0, y0, error =>
    if x0 = x1 ∧ y0 = y1 then some [(x0, y0)]
    else
      (bresenhamLoop x1 y1 deltaX deltaY stepX stepY fuel
        (if 2 * error > -deltaY then x0 + stepX else x0)
        (if 2 * error < deltaX then y0 + stepY else y0)
        (if 2 * error < deltaX
          then (if 2 * error > -deltaY then error - deltaY else error) + deltaX
          else (if 2 * error > -deltaY then error - deltaY else error))).map
        (fun l => (x0, y0) :: l)

/-- Models `drawLineBresenham(blitter, a, b, color, clip=false, backbuffer)`
(the drawing core, after any clipping pre-pass): endpoints are floored, then
the integer loop runs with `deltaX = |x1-x0|`, `deltaY = |y1-y0|`, steps `±1`
and initial error `deltaX - deltaY`. -/
def drawLineBresenham (fuel : Nat) (a b : ℚ × ℚ) : Option (List (Int × Int)) :=
  bresenhamLoop ⌊b.1⌋ ⌊b.2⌋ |⌊b.1⌋ - ⌊a.1⌋| |⌊b.2⌋ - ⌊a.2⌋|
    (if ⌊a.1⌋ < ⌊b.1⌋ then 1 else -1) (if ⌊a.2⌋ < ⌊b.2⌋ then 1 else -1)
    fuel ⌊a.1⌋ ⌊a.2⌋ (|⌊b.1⌋ - ⌊a.1⌋| - |⌊b.2⌋ - ⌊a.2⌋|)

/-- C7: DDA and Bresenham write the identical pixel list for the segment
`(0,0) → (10,0)` — the 11-pixel horizontal run — and for `(0,0) → (5,5)` —
the 6-pixel diagonal.  (11 and 6 are exactly the fuel each loop needs.) -/
theorem dda_bresenham_identical_pixels :
    drawLineDDA 11 (0, 0) (10, 0)
      = some [(0, 0), (1, 0), (2, 0), (3, 0), (4, 0), (5, 0),
              (6, 0), (7, 0), (8, 0), (9, 0), (10, 0)]
    ∧ drawLineBresenham 11 (0, 0) (10, 0)
      = some [(0, 0), (1, 0), (2, 0), (3, 0), (4, 0), (5, 0),
              (6, 0), (7, 0), (8, 0), (9, 0), (10, 0)]
    ∧ drawLineDDA 6 (0, 0) (5, 5)
      = some [(0, 0), (1, 1), (2, 2), (3, 3), (4, 4), (5, 5)]
    ∧ drawLineBresenham 6 (0, 0) (5, 5)
      = some [(0, 0), (1, 1), (2, 2), (3, 3), (4, 4), (5, 5)] := by
  refine ⟨by decide, by decide, by decide, by decide⟩

/-- One unfolding step of the Bresenham loop with positive fuel. -/
theorem bresenhamLoop_succ (x1 y1 deltaX deltaY stepX stepY : Int) (fuel : Nat)
    (x0 y0 error : Int) :
    bresenhamLoop x1 y1 deltaX deltaY stepX stepY (fuel + 1) x0 y0 error
      = if x0 = x1 ∧ y0 = y1 then some [(x0, y0)]
        else
          (bresenhamLoop x1 y1 deltaX deltaY stepX stepY fuel
            (if 2 * error > -deltaY then x0 + stepX else x0)
            (if 2 * error < deltaX then y0 + stepY else y0)
            (if 2 * error < deltaX
              then (if 2 * error > -deltaY then error - deltaY else error) + deltaX
              else (if 2 * error > -deltaY then error - deltaY else error))).map
            (fun l => (x0, y0) :: l) := rfl

/-- Termination run of the Bresenham loop when the major axis is `x`
(`deltaY ≤ deltaX`): from iteration `i` with `b` accumulated `y` steps and
the error invariant `(2b-1)·P < 2iQ ≤ (2b+1)·P`, the loop reaches the end
point in exactly `P - i` further iterations, plotting one pixel each. -/
theorem bresenhamLoop_run_ge (P Q x0 y0 sx sy : Int)
    (hQ0 : 0 ≤ Q) (hQP : Q ≤ P) (hP1 : 1 ≤ P)
    (hsx : sx = 1 ∨ sx = -1) (hsy : sy = 1 ∨ sy = -1) :
    ∀ (n : Nat) (i b : Int), (P - i).toNat = n → 0 ≤ i → i ≤ P → 0 ≤ b →
      (2 * b - 1) * P < 2 * (i * Q) → 2 * (i * Q) ≤ (2 * b + 1) * P →
      ∃ l, bresenhamLoop (x0 + sx * P) (y0 + sy * Q) P Q sx sy (n + 1)
          (x0 + sx * i) (y0 + sy * b) (P - Q - i * Q + b * P) = some l
        ∧ l.length = n + 1 := by
  intro n
  induction n with
  | zero =>
    intro i b hn hi0 hiP hb0 hlow hup
    have hiP2 : i = P := by omega
    subst hiP2
    have hbQ : b = Q := by
      have e1 : 2 * (i * Q) = (2 * Q) * i := by ring
      have h1 : (2 * b - 1) * i < (2 * Q) * i := by linarith
      have h2 : (2 * Q) * i ≤ (2 * b + 1) * i := by linarith
      have hP0 : (0 : Int) < i := by omega
      have g1 : 2 * b - 1 < 2 * Q := (mul_lt_mul_right hP0).mp h1
      have g2 : 2 * Q ≤ 2 * b + 1 := (mul_le_mul_right hP0).mp h2
      omega
    subst hbQ
    refine ⟨[(x0 + sx * i, y0 + sy * b)], ?_, rfl⟩
    simp [bresenhamLoop]
  | succ n ih =>
    intro i b hn hi0 hiP hb0 hlow hup
    have hiltP : i < P := by omega
    have hne : ¬(x0 + sx * i = x0 + sx * P ∧ y0 + sy * b = y0 + sy * Q) := by
      rintro ⟨h1, -⟩
      rcases hsx with rfl | rfl <;> omega
    have r1 : (2 * b + 1) * P = 2 * (b * P) + P := by ring
    have r2 : (2 * b - 1) * P = 2 * (b * P) - P := by ring
    have hx : 2 * (P - Q - i * Q + b * P) > -Q := by
      rcases eq_or_lt_of_le hQP with heq | hlt
      · have e1 : 2 * (i * Q) = (2 * i) * P := by rw [← heq]; ring
        have e2 : (2 * b - 1) * P < (2 * i) * P := by linarith
        have e3 : (2 * i) * P ≤ (2 * b + 1) * P := by linarith
        have hP0 : (0 : Int) < P := by omega
        have g1 : 2 * b - 1 < 2 * i := (mul_lt_mul_right hP0).mp e2
        have g2 : 2 * i ≤ 2 * b + 1 := (mul_le_mul_right hP0).mp e3
        have hbi : b = i := by omega
        have e4 : P - Q - i * Q + b * P = 0 := by rw [← heq, hbi]; ring
        rw [e4]
        omega
      · linarith
    rw [bresenhamLoop_succ, if_neg hne]
    simp only [if_pos hx]
    by_cases hyc : 2 * (P - Q - i * Q + b * P) < P
    · simp only [if_pos hyc]
      have e1 : x0 + sx * i + sx = x0 + sx * (i + 1) := by ring
      have e2 : y0 + sy * b + sy = y0 + sy * (b + 1) := by ring
      have e3 : P - Q - i * Q + b * P - Q + P = P - Q - (i + 1) * Q + (b + 1) * P := by
        ring
      rw [e1, e2, e3]
      have r3 : 2 * ((i + 1) * Q) = 2 * (i * Q) + 2 * Q := by ring
      have r4 : (2 * (b + 1) - 1) * P = 2 * (b * P) + P := by ring
      have r5 : (2 * (b + 1) + 1) * P = 2 * (b * P) + 3 * P := by ring
      obtain ⟨l, hl, hlen⟩ := ih (i + 1) (b + 1) (by omega) (by omega) (by omega)
        (by omega) (by linarith) (by linarith)
      rw [hl]
      exact ⟨(x0 + sx * i, y0 + sy * b) :: l, rfl, by simp [hlen]⟩
    · simp only [if_neg hyc]
      have e1 : x0 + sx * i + sx = x0 + sx * (i + 1) := by ring
      have e3 : P - Q - i * Q + b * P - Q = P - Q - (i + 1) * Q + b * P := by ring
      rw [e1, e3]
      have r3 : 2 * ((i + 1) * Q) = 2 * (i * Q) + 2 * Q := by ring
      obtain ⟨l, hl, hlen⟩ := ih (i + 1) b (by omega) (by omega) (by omega)
        (by omega) (by linarith) (by linarith)
      rw [hl]
      exact ⟨(x0 + sx * i, y0 + sy * b) :: l, rfl, by simp [hlen]⟩

/-- Termination run of the Bresenham loop when the major axis is `y`
(`deltaX < deltaY`): from iteration `i` with `a` accumulated `x` steps and
the error invariant `(2a-1)·Q < 2iP ≤ (2a+1)·Q`, the loop reaches the end
point in exactly `Q - i` further iterations, plotting one pixel each. -/
theorem bresenhamLoop_run_lt (P Q x0 y0 sx sy : Int)
    (hP0 : 0 ≤ P) (hPQ : P < Q)
    (hsx : sx = 1 ∨ sx = -1) (hsy : sy = 1 ∨ sy = -1) :
    ∀ (n : Nat) (i a : Int), (Q - i).toNat = n → 0 ≤ i → i ≤ Q → 0 ≤ a →
      (2 * a - 1) * Q < 2 * (i * P) → 2 * (i * P) ≤ (2 * a + 1) * Q →
      ∃ l, bresenhamLoop (x0 + sx * P) (y0 + sy * Q) P Q sx sy (n + 1)
          (x0 + sx * a) (y0 + sy * i) (P - Q - a * Q + i * P) = some l
        ∧ l.length = n + 1 := by
  intro n
  induction n with
  | zero =>
    intro i a hn hi0 hiQ ha0 hlow hup
    have hiQ2 : i = Q := by omega
    subst hiQ2
    have haP : a = P := by
      have e1 : 2 * (i * P) = (2 * P) * i := by ring
      have h1 : (2 * a - 1) * i < (2 * P) * i := by linarith
      have h2 : (2 * P) * i ≤ (2 * a + 1) * i := by linarith
      have hQ0 : (0 : Int) < i := by omega
      have g1 : 2 * a - 1 < 2 * P := (mul_lt_mul_right hQ0).mp h1
      have g2 : 2 * P ≤ 2 * a + 1 := (mul_le_mul_right hQ0).mp h2
      omega
    subst haP
    refine ⟨[(x0 + sx * a, y0 + sy * i)], ?_, rfl⟩
    simp [bresenhamLoop]
  | succ n ih =>
    intro i a hn hi0 hiQ ha0 hlow hup
    have hiltQ : i < Q := by omega
    have hne : ¬(x0 + sx * a = x0 + sx * P ∧ y0 + sy * i = y0 + sy * Q) := by
      rintro ⟨-, h2⟩
      rcases hsy with rfl | rfl <;> omega
    have r1 : (2 * a + 1) * Q = 2 * (a * Q) + Q := by ring
    have r2 : (2 * a - 1) * Q = 2 * (a * Q) - Q := by ring
    have hy : 2 * (P - Q - a * Q + i * P) < P := by linarith
    rw [bresenhamLoop_succ, if_neg hne]
    simp only [if_pos hy]
    by_cases hxc : 2 * (P - Q - a * Q + i * P) > -Q
    · simp only [if_pos hxc]
      have e1 : x0 + sx * a + sx = x0 + sx * (a + 1) := by ring
      have e2 : y0 + sy * i + sy = y0 + sy * (i + 1) := by ring
      have e3 : P - Q - a * Q + i * P - Q + P = P - Q - (a + 1) * Q + (i + 1) * P := by
        ring
      rw [e1, e2, e3]
      have r3 : 2 * ((i + 1) * P) = 2 * (i * P) + 2 * P := by ring
      have r4 : (2 * (a + 1) - 1) * Q = 2 * (a * Q) + Q := by ring
      have r5 : (2 * (a + 1) + 1) * Q = 2 * (a * Q) + 3 * Q := by ring
      obtain ⟨l, hl, hlen⟩ := ih (i + 1) (a + 1) (by omega) (by omega) (by omega)
        (by omega) (by linarith) (by linarith)
      rw [hl]
      exact ⟨(x0 + sx * a, y0 + sy * i) :: l, rfl, by simp [hlen]⟩
    · simp only [if_neg hxc]
      have e2 : y0 + sy * i + sy = y0 + sy * (i + 1) := by ring
      have e3 : P - Q - a * Q + i * P + P = P - Q - a * Q + (i + 1) * P := by ring
      rw [e2, e3]
      have r3 : 2 * ((i + 1) * P) = 2 * (i * P) + 2 * P := by ring
      obtain ⟨l, hl, hlen⟩ := ih (i + 1) a (by omega) (by omega) (by omega)
        (by omega) (by linarith) (by linarith)
      rw [hl]
      exact ⟨(x0 + sx * a, y0 + sy * i) :: l, rfl, by simp [hlen]⟩

/-- The DDA loop runs to its own exit (`i > steps`) whenever the fuel covers
the remaining `⌊steps⌋ + 1 - i` iterations, writing exactly one pixel per
integer step. -/
theorem ddaLoop_runs (steps stepX stepY : ℚ) (hs : 0 ≤ steps) :
    ∀ (fuel i : Nat) (x y : ℚ), (⌊steps⌋ : Int) < (i : Int) + (fuel : Int) →
      ∃ l, ddaLoop steps stepX stepY fuel i x y = some l
        ∧ l.length = ⌊steps⌋.toNat + 1 - i := by
  intro fuel
  induction fuel with
  | zero =>
    intro i x y hb
    have hfl0 : (0 : Int) ≤ ⌊steps⌋ := Int.floor_nonneg.mpr hs
    have hgt : ¬ ((i : ℚ) ≤ steps) := by
      intro hle
      have : (i : Int) ≤ ⌊steps⌋ := Int.le_floor.mpr (by exact_mod_cast hle)
      omega
    refine ⟨[], by simp [ddaLoop, hgt], ?_⟩
    simp only [List.length_nil]
    omega
  | succ fuel ih =>
    intro i x y hb
    by_cases hc : (i : ℚ) ≤ steps
    · have hfloor : (i : Int) ≤ ⌊steps⌋ := Int.le_floor.mpr (by exact_mod_cast hc)
      have hfl0 : (0 : Int) ≤ ⌊steps⌋ := Int.floor_nonneg.mpr hs
      obtain ⟨l, hl, hlen⟩ := ih (i + 1) (x + stepX) (y + stepY) (by push_cast at hb ⊢; omega)
      refine ⟨(⌊x⌋, ⌊y⌋) :: l, ?_, ?_⟩
      · simp [ddaLoop, hc, hl]
      · simp only [List.length_cons, hlen]
        omega
    · have hfl0 : (0 : Int) ≤ ⌊steps⌋ := Int.floor_nonneg.mpr hs
      have hgt : (⌊steps⌋ : Int) < i := by
        have h1 : steps < (i : ℚ) := lt_of_not_le hc
        have h2 : (⌊steps⌋ : ℚ) ≤ steps := Int.floor_le steps
        exact_mod_cast lt_of_le_of_lt h2 h1
      refine ⟨[], by simp [ddaLoop, hc], ?_⟩
      simp only [List.length_nil]
      omega

/-- The Bresenham loop, started as `drawLineBresenham` starts it on floored
endpoints, terminates with fuel `max(deltaX, deltaY) + 1` and plots exactly
that many pixels. -/
theorem bresenhamLoop_start (x0 y0 x1 y1 : Int) :
    ∃ l, bresenhamLoop x1 y1 |x1 - x0| |y1 - y0|
        (if x0 < x1 then 1 else -1) (if y0 < y1 then 1 else -1)
        ((max |x1 - x0| |y1 - y0|).toNat + 1) x0 y0 (|x1 - x0| - |y1 - y0|) = some l
      ∧ l.length = (max |x1 - x0| |y1 - y0|).toNat + 1 := by
  set P := |x1 - x0| with hP
  set Q := |y1 - y0| with hQ
  set sx : Int := if x0 < x1 then 1 else -1 with hsx
  set sy : Int := if y0 < y1 then 1 else -1 with hsy
  have hsx2 : sx = 1 ∨ sx = -1 := by rw [hsx]; split_ifs <;> simp
  have hsy2 : sy = 1 ∨ sy = -1 := by rw [hsy]; split_ifs <;> simp
  have hP0 : 0 ≤ P := abs_nonneg _
  have hQ0 : 0 ≤ Q := abs_nonneg _
  have hx1 : x1 = x0 + sx * P := by
    rw [hsx, hP]
    split_ifs with h
    · rw [abs_of_nonneg (by omega : (0 : Int) ≤ x1 - x0)]; ring
    · rw [abs_of_nonpos (by omega : x1 - x0 ≤ 0)]; ring
  have hy1 : y1 = y0 + sy * Q := by
    rw [hsy, hQ]
    split_ifs with h
    · rw [abs_of_nonneg (by omega : (0 : Int) ≤ y1 - y0)]; ring
    · rw [abs_of_nonpos (by omega : y1 - y0 ≤ 0)]; ring
  rcases le_or_lt Q P with hQP | hPQ
  · rcases eq_or_lt_of_le hP0 with hP0e | hP1
    · have hPz : P = 0 := hP0e.symm
      have hQz : Q = 0 := by omega
      have hx0 : x1 = x0 := by rw [hx1, hPz]; ring
      have hy0 : y1 = y0 := by rw [hy1, hQz]; ring
      have hmax : (max P Q).toNat = 0 := by omega
      rw [hmax]
      exact ⟨[(x0, y0)], by simp [bresenhamLoop, hx0, hy0], rfl⟩
    · have hmax : max P Q = P := max_eq_left hQP
      have inv1 : (2 * (0 : Int) - 1) * P < 2 * ((0 : Int) * Q) := by
        have : (2 * (0 : Int) - 1) * P = -P := by ring
        rw [this]
        simp
        omega
      have inv2 : 2 * ((0 : Int) * Q) ≤ (2 * (0 : Int) + 1) * P := by
        have : (2 * (0 : Int) + 1) * P = P := by ring
        rw [this]
        simp
        omega
      obtain ⟨l, hl, hlen⟩ := bresenhamLoop_run_ge P Q x0 y0 sx sy hQ0 hQP
        (by omega) hsx2 hsy2 P.toNat 0 0 (by omega) le_rfl (by omega) le_rfl inv1 inv2
      have a1 : x0 + sx * (0 : Int) = x0 := by ring
      have a2 : y0 + sy * (0 : Int) = y0 := by ring
      have a3 : P - Q - (0 : Int) * Q + (0 : Int) * P = P - Q := by ring
      rw [a1, a2, a3, ← hx1, ← hy1] at hl
      rw [hmax]
      exact ⟨l, hl, hlen⟩
  · have hmax : max P Q = Q := max_eq_right (le_of_lt hPQ)
    have inv1 : (2 * (0 : Int) - 1) * Q < 2 * ((0 : Int) * P) := by
      have : (2 * (0 : Int) - 1) * Q = -Q := by ring
      rw [this]
      simp
      omega
    have inv2 : 2 * ((0 : Int) * P) ≤ (2 * (0 : Int) + 1) * Q := by
      have : (2 * (0 : Int) + 1) * Q = Q := by ring
      rw [this]
      simp
      omega
    obtain ⟨l, hl, hlen⟩ := bresenhamLoop_run_lt P Q x0 y0 sx sy hP0 hPQ
      hsx2 hsy2 Q.toNat 0 0 (by omega) le_rfl (by omega) le_rfl inv1 inv2
    have a1 : x0 + sx * (0 : Int) = x0 := by ring
    have a2 : y0 + sy * (0 : Int) = y0 := by ring
    have a3 : P - Q - (0 : Int) * Q + (0 : Int) * P = P - Q := by ring
    rw [a1, a2, a3, ← hx1, ← hy1] at hl
    rw [hmax]
    exact ⟨l, hl, hlen⟩

/-! ### JavaScript number semantics of the Bresenham loop

The claim also quantifies over NaN and infinite endpoints.  For those the
loop's arithmetic is JavaScript floating-point; after `Math.floor` the values
reaching the Bresenham loop are integers or NaN (or infinities).  `JSNum`
models exactly the values and operations the loop uses — integral doubles
and NaN, with every comparison against NaN false — enough to run the loop's
own code on a NaN endpoint. -/

inductive JSNum where
  | num : Int → JSNum
  | nan : JSNum
deriving DecidableEq

/-- JavaScript subtraction on integral doubles and NaN. -/
def JSNum.sub : JSNum → JSNum → JSNum
  | num a, num b => num (a - b)
  | _, _ => nan

/-- JavaScript addition on integral doubles and NaN. -/
def JSNum.add : JSNum → JSNum → JSNum
  | num a, num b => num (a + b)
  | _, _ => nan

/-- JavaScript negation. -/
def JSNum.neg : JSNum → JSNum
  | num a => num (-a)
  | nan => nan

/-- JavaScript `Math.abs`. -/
def JSNum.abs : JSNum → JSNum
  | num a => num |a|
  | nan => nan

/-- JavaScript doubling (`2 * error`). -/
def JSNum.twice : JSNum → JSNum
  | num a => num (2 * a)
  | nan => nan

/-- JavaScript `<`: every comparison involving NaN is false. -/
def JSNum.lt : JSNum → JSNum → Bool
  | num a, num b => decide (a < b)
  | _, _ => false

/-- JavaScript `===`: NaN is not strictly equal to anything, itself included. -/
def JSNum.seq : JSNum → JSNum → Bool
  | num a, num b => decide (a = b)
  | _, _ => false

/-- The Bresenham `while (true)` loop under JavaScript number semantics:
plot, exit when `x0 === x1 && y0 === y1`, else step per the `2*error`
comparisons.  `none` = the fuel ran out before the exit condition fired. -/
def bresenhamLoopJS (x1 y1 deltaX deltaY stepX stepY : JSNum) :
    Nat → JSNum → JSNum → JSNum → Option (List (JSNum × JSNum))
  | 0, _, _, _ => none
  | fuel + 1, x0, y0, error =>
    if (JSNum.seq x0 x1 && JSNum.seq y0 y1) = true then some [(x0, y0)]
    else
      (bresenhamLoopJS x1 y1 deltaX deltaY stepX stepY fuel
        (if JSNum.lt (JSNum.neg deltaY) (JSNum.twice error) = true
          then JSNum.add x0 stepX else x0)
        (if JSNum.lt (JSNum.twice error) deltaX = true
          then JSNum.add y0 stepY else y0)
        (if JSNum.lt (JSNum.twice error) deltaX = true
          then JSNum.add (if JSNum.lt (JSNum.neg deltaY) (JSNum.twice error) = true
            then JSNum.sub error deltaY else error) deltaX
          else (if JSNum.lt (JSNum.neg deltaY) (JSNum.twice error) = true
            then JSNum.sub error deltaY else error))).map
        (fun l => (x0, y0) :: l)

/-- Models `drawLineBresenham` under JavaScript number semantics on already
floored endpoints (`Math.floor` is the identity on integral doubles and maps
NaN to NaN): `deltaX = |x1-x0|`, `deltaY = |y1-y0|`, steps from `x0 < x1` /
`y0 < y1`, initial error `deltaX - deltaY`. -/
def drawLineBresenhamJS (fuel : Nat) (ax ay bx bY : JSNum) :
    Option (List (JSNum × JSNum)) :=
  bresenhamLoopJS bx bY ((JSNum.sub bx ax).abs) ((JSNum.sub bY ay).abs)
    (if JSNum.lt ax bx = true then JSNum.num 1 else JSNum.num (-1))
    (if JSNum.lt ay bY = true then JSNum.num 1 else JSNum.num (-1))
    fuel ax ay (JSNum.sub ((JSNum.sub bx ax).abs) ((JSNum.sub bY ay).abs))

/-- Termination of the JavaScript Bresenham loop on given endpoints: some
fuel suffices to reach the loop's own exit condition. -/
def BresenhamJSHalts (ax ay bx bY : JSNum) : Prop :=
  ∃ fuel, (drawLineBresenhamJS fuel ax ay bx bY).isSome = true

/-- C3 counterexample: with the NaN endpoint `(NaN, NaN)` (e.g. from
`Math.floor` of a NaN coordinate) the Bresenham loop never terminates: every
NaN comparison is false, so neither axis ever steps and the exit test
`x0 === x1` can never fire — no amount of fuel reaches the exit. -/
theorem bresenham_nan_never_terminates :
    ¬ BresenhamJSHalts (JSNum.num 0) (JSNum.num 0) JSNum.nan JSNum.nan := by
  rintro ⟨fuel, hf⟩
  have key : ∀ (f : Nat) (x0 y0 : JSNum),
      bresenhamLoopJS JSNum.nan JSNum.nan JSNum.nan JSNum.nan
        (JSNum.num (-1)) (JSNum.num (-1)) f x0 y0 JSNum.nan = none := by
    intro f
    induction f with
    | zero => intro x0 y0; rfl
    | succ f ih =>
      intro x0 y0
      cases x0 <;> cases y0 <;>
        simp [bresenhamLoopJS, JSNum.seq, JSNum.twice, JSNum.neg, JSNum.lt, ih]
  have heq : drawLineBresenhamJS fuel (JSNum.num 0) (JSNum.num 0) JSNum.nan JSNum.nan
      = bresenhamLoopJS JSNum.nan JSNum.nan JSNum.nan JSNum.nan
        (JSNum.num (-1)) (JSNum.num (-1)) fuel (JSNum.num 0) (JSNum.num 0) JSNum.nan := rfl
  rw [heq, key] at hf
  simp at hf

/-- C3 amended: for finite endpoints (after the clipping pre-pass, drawing
with clipping off) both rasterisers terminate, with the number of pixel
writes equal to the segment's own pixel count: DDA writes `⌊steps⌋ + 1`
pixels (`steps = max(|Δx|, |Δy|)` in exact arithmetic, one per loop
iteration), Bresenham writes `max(|x1-x0|, |y1-y0|) + 1` pixels on the
floored endpoints; the stated fuel is exactly what each loop consumes.  With
NaN or infinite coordinates the claim fails (see the counterexample). -/
theorem lineDraw_terminates_with_pixel_count (a b : ℚ × ℚ) :
    (∃ l, drawLineDDA ((⌊max |b.1 - a.1| |b.2 - a.2|⌋).toNat + 1) a b = some l
        ∧ l.length = (⌊max |b.1 - a.1| |b.2 - a.2|⌋).toNat + 1)
    ∧ (∃ l, drawLineBresenham
          ((max |⌊b.1⌋ - ⌊a.1⌋| |⌊b.2⌋ - ⌊a.2⌋|).toNat + 1) a b = some l
        ∧ l.length = (max |⌊b.1⌋ - ⌊a.1⌋| |⌊b.2⌋ - ⌊a.2⌋|).toNat + 1) := by
  constructor
  · by_cases h0 : max |b.1 - a.1| |b.2 - a.2| = 0
    · refine ⟨[(⌊a.1⌋, ⌊a.2⌋)], ?_, ?_⟩
      · simp [drawLineDDA, h0]
      · rw [h0]
        simp
    · have hs : 0 ≤ max |b.1 - a.1| |b.2 - a.2| :=
        le_max_of_le_left (abs_nonneg _)
      have hfl0 : (0 : Int) ≤ ⌊max |b.1 - a.1| |b.2 - a.2|⌋ := Int.floor_nonneg.mpr hs
      obtain ⟨l, hl, hlen⟩ := ddaLoop_runs (max |b.1 - a.1| |b.2 - a.2|)
        ((b.1 - a.1) / max |b.1 - a.1| |b.2 - a.2|)
        ((b.2 - a.2) / max |b.1 - a.1| |b.2 - a.2|) hs
        ((⌊max |b.1 - a.1| |b.2 - a.2|⌋).toNat + 1) 0 a.1 a.2 (by push_cast; omega)
      refine ⟨l, ?_, ?_⟩
      · simp [drawLineDDA, h0, hl]
      · rw [hlen]
        omega
  · exact bresenhamLoop_start ⌊a.1⌋ ⌊a.2⌋ ⌊b.1⌋ ⌊b.2⌋

/-! ### Scanline triangle filler (`flat-scanline.ts`, clamped version)

`rasterScanlines` clamps the scanline range to `[0, height)` and each span to
`[0, width)`; the two `for` loops have integer trip counts and are embedded
by recursion on those counts.  `fillFlatTop` / `fillFlatBottom` guard their
slope divisions against a zero `y`-span, and `fillFlatScanline` dispatches on
the raster order exactly as the source does. -/

/-- Models the span loop
`for (x = xStart; x < xEnd; x++) backbuffer[position + x] = color`,
by recursion on the trip count `xEnd - xStart`. -/
def writeRow (color : Nat) (position : Int) : Nat → Int → List Nat → List Nat
  | 0, _, buf => buf
  | n + 1, x, buf => writeRow color position n (x + 1) (writeU32 buf (position + x) color)

/-- Models the scanline loop of `rasterScanlines`, by recursion on the trip
count: each row writes the span `[max(0, ceil(xLeft)), min(width,
ceil(xRight)))` at `position`, then advances by `width` and by the slopes. -/
def rasterRows (width : Nat) (slopeLeft slopeRight : ℚ) (color : Nat) :
    Nat → Int → ℚ → ℚ → List Nat → List Nat
  | 0, _, _, _, buf => buf
  | rows + 1, position, xLeft, xRight, buf =>
      rasterRows width slopeLeft slopeRight color rows (position + width)
        (xLeft + slopeLeft) (xRight + slopeRight)
        (writeRow color position
          (min (width : Int) ⌈xRight⌉ - max 0 ⌈xLeft⌉).toNat (max 0 ⌈xLeft⌉) buf)

/-- Models `rasterScanlines(width, height, yStart, yEnd, xLeft, xRight,
slopeLeft, slopeRight, color, backbuffer)`: the vertical range is clamped to
`[0, height)`, `position` starts at `clampedYStart * width`. -/
def rasterScanlines (width height : Nat) (yStart yEnd : Int)
    (xLeft xRight slopeLeft slopeRight : ℚ) (color : Nat)
    (backbuffer : List Nat) : List Nat :=
  rasterRows width slopeLeft slopeRight color
    (min (height : Int) yEnd - max 0 yStart).toNat
    (max 0 yStart * width) xLeft xRight backbuffer

/-- Models `fillFlatTop(width, height, v0, v1, v2, color, backbuffer)`:
`dyLeft = v2.y - v0.y`, `dyRight = v2.y - v1.y`, zero-guard, slopes
`Δx/Δy`, scanlines from `ceil(v0.y)` to `ceil(v2.y)` starting at
`xLeft = v0.x`, `xRight = v1.x`. -/
def fillFlatTop (width height : Nat) (v0 v1 v2 : Point2D) (color : Nat)
    (backbuffer : List Nat) : List Nat :=
  if v2.y - v0.y = 0 ∨ v2.y - v1.y = 0 then backbuffer
  else
    rasterScanlines width height ⌈v0.y⌉ ⌈v2.y⌉ v0.x v1.x
      ((v2.x - v0.x) / (v2.y - v0.y)) ((v2.x - v1.x) / (v2.y - v1.y))
      color backbuffer

/-- Models `fillFlatBottom(width, height, v0, v1, v2, color, backbuffer)`:
`dyLeft = v1.y - v0.y`, `dyRight = v2.y - v0.y`, zero-guard, slopes
`Δx/Δy`, scanlines from `ceil(v0.y)` to `ceil(v1.y)` starting at
`xLeft = xRight = v0.x`. -/
def fillFlatBottom (width height : Nat) (v0 v1 v2 : Point2D) (color : Nat)
    (backbuffer : List Nat) : List Nat :=
  if v1.y - v0.y = 0 ∨ v2.y - v0.y = 0 then backbuffer
  else
    rasterScanlines width height ⌈v0.y⌉ ⌈v1.y⌉ v0.x v0.x
      ((v1.x - v0.x) / (v1.y - v0.y)) ((v2.x - v0.x) / (v2.y - v0.y))
      color backbuffer

/-- Models `fillFlatScanline(blitter, triangle, color, backbuffer)`: raster
order, flat-bottom / flat-top dispatch, or the general split at
`t = (v1.y - v0.y) / (v2.y - v0.y)` with `v3 = (v0.x + t(v2.x - v0.x), v1.y)`
and `left/right` ordered by `x`, filling flat-bottom then flat-top. -/
def fillFlatScanline (width height : Nat) (t : Triangle2D) (color : Color4)
    (backbuffer : List Nat) : List Nat :=
  let v0 := (t.rasterOrder).1
  let v1 := (t.rasterOrder).2.1
  let v2 := (t.rasterOrder).2.2
  let colorUnpacked := (color.toAABBGGRR).1
  if v1.y = v2.y then
    fillFlatBottom width height v0 v1 v2 colorUnpacked backbuffer
  else if v0.y = v1.y then
    fillFlatTop width height v0 v1 v2 colorUnpacked backbuffer
  else
    let t3 := (v1.y - v0.y) / (v2.y - v0.y)
    let v3 : Point2D := ⟨v0.x + t3 * (v2.x - v0.x), v1.y⟩
    if v1.x < v3.x then
      fillFlatTop width height v1 v3 v2 colorUnpacked
        (fillFlatBottom width height v0 v1 v3 colorUnpacked backbuffer)
    else
      fillFlatTop width height v3 v1 v2 colorUnpacked
        (fillFlatBottom width height v0 v3 v1 colorUnpacked backbuffer)

/-- A run of `rasterRows` in which every row's clamped span is empty leaves
the backbuffer unchanged. -/
theorem rasterRows_empty (width : Nat) (sL sR : ℚ) (c : Nat) :
    ∀ (rows : Nat) (pos : Int) (xL xR : ℚ) (buf : List Nat),
      (∀ k : Nat, k < rows →
        min (width : Int) ⌈xR + (k : ℚ) * sR⌉ ≤ max 0 ⌈xL + (k : ℚ) * sL⌉) →
      rasterRows width sL sR c rows pos xL xR buf = buf := by
  intro rows
  induction rows with
  | zero => intro pos xL xR buf _; rfl
  | succ rows ih =>
    intro pos xL xR buf hspan
    have h0 := hspan 0 (Nat.succ_pos rows)
    rw [show xR + ((0 : Nat) : ℚ) * sR = xR by push_cast; ring,
        show xL + ((0 : Nat) : ℚ) * sL = xL by push_cast; ring] at h0
    have hcnt : (min (width : Int) ⌈xR⌉ - max 0 ⌈xL⌉).toNat = 0 := by omega
    simp only [rasterRows, hcnt, writeRow]
    apply ih
    intro k hk
    have hs := hspan (k + 1) (by omega)
    rw [show xR + ((k + 1 : Nat) : ℚ) * sR = xR + sR + (k : ℚ) * sR by push_cast; ring,
        show xL + ((k + 1 : Nat) : ℚ) * sL = xL + sL + (k : ℚ) * sL by push_cast; ring] at hs
    exact hs

/-- Linear interpolation stays below a bound that both endpoints respect. -/
theorem interpolation_le (x0 x1 d bound k : ℚ) (hd : 0 < d)
    (h0 : x0 ≤ bound) (h1 : x1 ≤ bound) (hk0 : 0 ≤ k) (hkd : k ≤ d) :
    x0 + k * ((x1 - x0) / d) ≤ bound := by
  have hdne : d ≠ 0 := ne_of_gt hd
  have e : (x0 + k * ((x1 - x0) / d)) * d = x0 * (d - k) + k * x1 := by
    field_simp
    ring
  have hb : (x0 + k * ((x1 - x0) / d)) * d ≤ bound * d := by
    rw [e]
    nlinarith [mul_nonneg (sub_nonneg.mpr h0) (sub_nonneg.mpr hkd),
      mul_nonneg (sub_nonneg.mpr h1) hk0]
  exact le_of_mul_le_mul_right hb hd

/-- Linear interpolation stays above a bound that both endpoints respect. -/
theorem interpolation_ge (x0 x1 d bound k : ℚ) (hd : 0 < d)
    (h0 : bound ≤ x0) (h1 : bound ≤ x1) (hk0 : 0 ≤ k) (hkd : k ≤ d) :
    bound ≤ x0 + k * ((x1 - x0) / d) := by
  have hdne : d ≠ 0 := ne_of_gt hd
  have e : (x0 + k * ((x1 - x0) / d)) * d = x0 * (d - k) + k * x1 := by
    field_simp
    ring
  have hb : bound * d ≤ (x0 + k * ((x1 - x0) / d)) * d := by
    rw [e]
    nlinarith [mul_nonneg (sub_nonneg.mpr h0) (sub_nonneg.mpr hkd),
      mul_nonneg (sub_nonneg.mpr h1) hk0]
  exact le_of_mul_le_mul_right hb hd

/-- A row index below the clamped row count is below the `y`-span of the
triangle half being filled (ceil start, ceil end, exclusive). -/
theorem rowIndex_lt_span (hcap : Nat) (tQ bQ : ℚ) (k : Nat)
    (hk : (k : Int) < min (hcap : Int) ⌈bQ⌉ - max 0 ⌈tQ⌉) :
    (k : ℚ) < bQ - tQ := by
  have h1 : (k : Int) ≤ ⌈bQ⌉ - ⌈tQ⌉ - 1 := by
    have hm1 := min_le_right (hcap : Int) ⌈bQ⌉
    have hm2 := le_max_right (0 : Int) ⌈tQ⌉
    omega
  have h2 : (k : ℚ) ≤ (⌈bQ⌉ : ℚ) - (⌈tQ⌉ : ℚ) - 1 := by exact_mod_cast h1
  have h3 : (⌈bQ⌉ : ℚ) < bQ + 1 := Int.ceil_lt_add_one bQ
  have h4 : tQ ≤ (⌈tQ⌉ : ℚ) := Int.le_ceil tQ
  linarith

/-- A flat-top half entirely above the buffer fills nothing. -/
theorem fillFlatTop_ylow (w h : Nat) (v0 v1 v2 : Point2D) (c : Nat)
    (buf : List Nat) (hy : v2.y ≤ 0) :
    fillFlatTop w h v0 v1 v2 c buf = buf := by
  unfold fillFlatTop
  split_ifs with hg
  · rfl
  · unfold rasterScanlines
    have hceil : ⌈v2.y⌉ ≤ 0 := Int.ceil_le.mpr (by exact_mod_cast hy)
    have hrows : (min (h : Int) ⌈v2.y⌉ - max 0 ⌈v0.y⌉).toNat = 0 := by omega
    rw [hrows]
    rfl

/-- A flat-top half entirely below the buffer fills nothing. -/
theorem fillFlatTop_yhigh (w h : Nat) (v0 v1 v2 : Point2D) (c : Nat)
    (buf : List Nat) (hy : (h : ℚ) ≤ v0.y) :
    fillFlatTop w h v0 v1 v2 c buf = buf := by
  unfold fillFlatTop
  split_ifs with hg
  · rfl
  · unfold rasterScanlines
    have hceil : (h : Int) ≤ ⌈v0.y⌉ := by
      exact_mod_cast le_trans hy (Int.le_ceil v0.y)
    have hrows : (min (h : Int) ⌈v2.y⌉ - max 0 ⌈v0.y⌉).toNat = 0 := by omega
    rw [hrows]
    rfl

/-- A flat-bottom half entirely above the buffer fills nothing. -/
theorem fillFlatBottom_ylow (w h : Nat) (v0 v1 v2 : Point2D) (c : Nat)
    (buf : List Nat) (hy : v1.y ≤ 0) :
    fillFlatBottom w h v0 v1 v2 c buf = buf := by
  unfold fillFlatBottom
  split_ifs with hg
  · rfl
  · unfold rasterScanlines
    have hceil : ⌈v1.y⌉ ≤ 0 := Int.ceil_le.mpr (by exact_mod_cast hy)
    have hrows : (min (h : Int) ⌈v1.y⌉ - max 0 ⌈v0.y⌉).toNat = 0 := by omega
    rw [hrows]
    rfl

/-- A flat-bottom half entirely below the buffer fills nothing. -/
theorem fillFlatBottom_yhigh (w h : Nat) (v0 v1 v2 : Point2D) (c : Nat)
    (buf : List Nat) (hy : (h : ℚ) ≤ v0.y) :
    fillFlatBottom w h v0 v1 v2 c buf = buf := by
  unfold fillFlatBottom
  split_ifs with hg
  · rfl
  · unfold rasterScanlines
    have hceil : (h : Int) ≤ ⌈v0.y⌉ := by
      exact_mod_cast le_trans hy (Int.le_ceil v0.y)
    have hrows : (min (h : Int) ⌈v1.y⌉ - max 0 ⌈v0.y⌉).toNat = 0 := by omega
    rw [hrows]
    rfl

/-- A flat-top half entirely left of the buffer fills nothing (`v0` and `v1`
share their `y`, as the dispatcher guarantees). -/
theorem fillFlatTop_xlow (w h : Nat) (v0 v1 v2 : Point2D) (c : Nat)
    (buf : List Nat) (heq : v0.y = v1.y) (hle : v0.y ≤ v2.y)
    (h0 : v0.x ≤ 0) (h1 : v1.x ≤ 0) (h2 : v2.x ≤ 0) :
    fillFlatTop w h v0 v1 v2 c buf = buf := by
  unfold fillFlatTop
  split_ifs with hg
  · rfl
  · push_neg at hg
    obtain ⟨hgL, hgR⟩ := hg
    have hd : 0 < v2.y - v0.y := lt_of_le_of_ne (by linarith) (Ne.symm hgL)
    unfold rasterScanlines
    apply rasterRows_empty
    intro k hk
    have hkI : (k : Int) < min (h : Int) ⌈v2.y⌉ - max 0 ⌈v0.y⌉ := by omega
    have hkd : (k : ℚ) < v2.y - v0.y := rowIndex_lt_span h v0.y v2.y k hkI
    have hde : v2.y - v1.y = v2.y - v0.y := by rw [heq]
    have hxR : v1.x + (k : ℚ) * ((v2.x - v1.x) / (v2.y - v1.y)) ≤ 0 := by
      rw [hde]
      exact interpolation_le v1.x v2.x (v2.y - v0.y) 0 k hd h1 h2
        (Nat.cast_nonneg k) (le_of_lt hkd)
    have hcR : ⌈v1.x + (k : ℚ) * ((v2.x - v1.x) / (v2.y - v1.y))⌉ ≤ 0 :=
      Int.ceil_le.mpr (by exact_mod_cast hxR)
    have hm1 := min_le_right (w : Int) ⌈v1.x + (k : ℚ) * ((v2.x - v1.x) / (v2.y - v1.y))⌉
    have hm2 := le_max_left (0 : Int) ⌈v0.x + (k : ℚ) * ((v2.x - v0.x) / (v2.y - v0.y))⌉
    omega

/-- A flat-top half entirely right of the buffer fills nothing. -/
theorem fillFlatTop_xhigh (w h : Nat) (v0 v1 v2 : Point2D) (c : Nat)
    (buf : List Nat) (heq : v0.y = v1.y) (hle : v0.y ≤ v2.y)
    (h0 : (w : ℚ) ≤ v0.x) (h1 : (w : ℚ) ≤ v1.x) (h2 : (w : ℚ) ≤ v2.x) :
    fillFlatTop w h v0 v1 v2 c buf = buf := by
  unfold fillFlatTop
  split_ifs with hg
  · rfl
  · push_neg at hg
    obtain ⟨hgL, hgR⟩ := hg
    have hd : 0 < v2.y - v0.y := lt_of_le_of_ne (by linarith) (Ne.symm hgL)
    unfold rasterScanlines
    apply rasterRows_empty
    intro k hk
    have hkI : (k : Int) < min (h : Int) ⌈v2.y⌉ - max 0 ⌈v0.y⌉ := by omega
    have hkd : (k : ℚ) < v2.y - v0.y := rowIndex_lt_span h v0.y v2.y k hkI
    have hxL : (w : ℚ) ≤ v0.x + (k : ℚ) * ((v2.x - v0.x) / (v2.y - v0.y)) :=
      interpolation_ge v0.x v2.x (v2.y - v0.y) w k hd h0 h2
        (Nat.cast_nonneg k) (le_of_lt hkd)
    have hcL : (w : Int) ≤ ⌈v0.x + (k : ℚ) * ((v2.x - v0.x) / (v2.y - v0.y))⌉ := by
      exact_mod_cast le_trans hxL (Int.le_ceil _)
    have hm1 := min_le_left (w : Int) ⌈v1.x + (k : ℚ) * ((v2.x - v1.x) / (v2.y - v1.y))⌉
    have hm2 := le_max_right (0 : Int) ⌈v0.x + (k : ℚ) * ((v2.x - v0.x) / (v2.y - v0.y))⌉
    omega

/-- A flat-bottom half entirely left of the buffer fills nothing (`v1` and
`v2` share their `y`, as the dispatcher guarantees). -/
theorem fillFlatBottom_xlow (w h : Nat) (v0 v1 v2 : Point2D) (c : Nat)
    (buf : List Nat) (heq : v1.y = v2.y) (hle : v0.y ≤ v1.y)
    (h0 : v0.x ≤ 0) (h1 : v1.x ≤ 0) (h2 : v2.x ≤ 0) :
    fillFlatBottom w h v0 v1 v2 c buf = buf := by
  unfold fillFlatBottom
  split_ifs with hg
  · rfl
  · push_neg at hg
    obtain ⟨hgL, hgR⟩ := hg
    have hd : 0 < v1.y - v0.y := lt_of_le_of_ne (by linarith) (Ne.symm hgL)
    unfold rasterScanlines
    apply rasterRows_empty
    intro k hk
    have hkI : (k : Int) < min (h : Int) ⌈v1.y⌉ - max 0 ⌈v0.y⌉ := by omega
    have hkd : (k : ℚ) < v1.y - v0.y := rowIndex_lt_span h v0.y v1.y k hkI
    have hde : v2.y - v0.y = v1.y - v0.y := by rw [heq]
    have hxR : v0.x + (k : ℚ) * ((v2.x - v0.x) / (v2.y - v0.y)) ≤ 0 := by
      rw [hde]
      exact interpolation_le v0.x v2.x (v1.y - v0.y) 0 k hd h0 h2
        (Nat.cast_nonneg k) (le_of_lt hkd)
    have hcR : ⌈v0.x + (k : ℚ) * ((v2.x - v0.x) / (v2.y - v0.y))⌉ ≤ 0 :=
      Int.ceil_le.mpr (by exact_mod_cast hxR)
    have hm1 := min_le_right (w : Int) ⌈v0.x + (k : ℚ) * ((v2.x - v0.x) / (v2.y - v0.y))⌉
    have hm2 := le_max_left (0 : Int) ⌈v0.x + (k : ℚ) * ((v1.x - v0.x) / (v1.y - v0.y))⌉
    omega

/-- A flat-bottom half entirely right of the buffer fills nothing. -/
theorem fillFlatBottom_xhigh (w h : Nat) (v0 v1 v2 : Point2D) (c : Nat)
    (buf : List Nat) (heq : v1.y = v2.y) (hle : v0.y ≤ v1.y)
    (h0 : (w : ℚ) ≤ v0.x) (h1 : (w : ℚ) ≤ v1.x) (h2 : (w : ℚ) ≤ v2.x) :
    fillFlatBottom w h v0 v1 v2 c buf = buf := by
  unfold fillFlatBottom
  split_ifs with hg
  · rfl
  · push_neg at hg
    obtain ⟨hgL, hgR⟩ := hg
    have hd : 0 < v1.y - v0.y := lt_of_le_of_ne (by linarith) (Ne.symm hgL)
    unfold rasterScanlines
    apply rasterRows_empty
    intro k hk
    have hkI : (k : Int) < min (h : Int) ⌈v1.y⌉ - max 0 ⌈v0.y⌉ := by omega
    have hkd : (k : ℚ) < v1.y - v0.y := rowIndex_lt_span h v0.y v1.y k hkI
    have hxL : (w : ℚ) ≤ v0.x + (k : ℚ) * ((v1.x - v0.x) / (v1.y - v0.y)) :=
      interpolation_ge v0.x v1.x (v1.y - v0.y) w k hd h0 h1
        (Nat.cast_nonneg k) (le_of_lt hkd)
    have hcL : (w : Int) ≤ ⌈v0.x + (k : ℚ) * ((v1.x - v0.x) / (v1.y - v0.y))⌉ := by
      exact_mod_cast le_trans hxL (Int.le_ceil _)
    have hm1 := min_le_left (w : Int) ⌈v0.x + (k : ℚ) * ((v2.x - v0.x) / (v2.y - v0.y))⌉
    have hm2 := le_max_right (0 : Int) ⌈v0.x + (k : ℚ) * ((v1.x - v0.x) / (v1.y - v0.y))⌉
    omega

/-- C8 amended: a triangle lying entirely on one side of the buffer (all
vertices above, below, left of, or right of it) writes nothing: the clamped
scanline range or every clamped span is empty, the backbuffer is returned
unchanged and no error occurs.  (All vertices merely being individually
outside is not enough — see the counterexample.) -/
theorem fillFlatScanline_offbuffer_unchanged (w h : Nat) (t : Triangle2D)
    (color : Color4) (buf : List Nat)
    (hsep :
      (t.a.y ≤ 0 ∧ t.b.y ≤ 0 ∧ t.c.y ≤ 0)
      ∨ ((h : ℚ) ≤ t.a.y ∧ (h : ℚ) ≤ t.b.y ∧ (h : ℚ) ≤ t.c.y)
      ∨ (t.a.x ≤ 0 ∧ t.b.x ≤ 0 ∧ t.c.x ≤ 0)
      ∨ ((w : ℚ) ≤ t.a.x ∧ (w : ℚ) ≤ t.b.x ∧ (w : ℚ) ≤ t.c.x)) :
    fillFlatScanline w h t color buf = buf := by
  obtain ⟨⟨hs1, hs2⟩, -, -⟩ := rasterOrder_spec t
  simp only [fillFlatScanline]
  split_ifs with hbt hft hlr
  · rcases hsep with ⟨ha, hb, hc⟩ | ⟨ha, hb, hc⟩ | ⟨ha, hb, hc⟩ | ⟨ha, hb, hc⟩
    · obtain ⟨p0, p1, p2⟩ := rasterOrder_pred t (fun p => p.y ≤ 0) ha hb hc
      exact fillFlatBottom_ylow w h _ _ _ _ buf p1
    · obtain ⟨p0, p1, p2⟩ := rasterOrder_pred t (fun p => (h : ℚ) ≤ p.y) ha hb hc
      exact fillFlatBottom_yhigh w h _ _ _ _ buf p0
    · obtain ⟨p0, p1, p2⟩ := rasterOrder_pred t (fun p => p.x ≤ 0) ha hb hc
      exact fillFlatBottom_xlow w h _ _ _ _ buf hbt hs1 p0 p1 p2
    · obtain ⟨p0, p1, p2⟩ := rasterOrder_pred t (fun p => (w : ℚ) ≤ p.x) ha hb hc
      exact fillFlatBottom_xhigh w h _ _ _ _ buf hbt hs1 p0 p1 p2
  · rcases hsep with ⟨ha, hb, hc⟩ | ⟨ha, hb, hc⟩ | ⟨ha, hb, hc⟩ | ⟨ha, hb, hc⟩
    · obtain ⟨p0, p1, p2⟩ := rasterOrder_pred t (fun p => p.y ≤ 0) ha hb hc
      exact fillFlatTop_ylow w h _ _ _ _ buf p2
    · obtain ⟨p0, p1, p2⟩ := rasterOrder_pred t (fun p => (h : ℚ) ≤ p.y) ha hb hc
      exact fillFlatTop_yhigh w h _ _ _ _ buf p0
    · obtain ⟨p0, p1, p2⟩ := rasterOrder_pred t (fun p => p.x ≤ 0) ha hb hc
      exact fillFlatTop_xlow w h _ _ _ _ buf hft (le_trans hs1 hs2) p0 p1 p2
    · obtain ⟨p0, p1, p2⟩ := rasterOrder_pred t (fun p => (w : ℚ) ≤ p.x) ha hb hc
      exact fillFlatTop_xhigh w h _ _ _ _ buf hft (le_trans hs1 hs2) p0 p1 p2
  all_goals (
    have hlt01 : (t.rasterOrder).1.y < (t.rasterOrder).2.1.y :=
      lt_of_le_of_ne hs1 hft
    have hlt12 : (t.rasterOrder).2.1.y < (t.rasterOrder).2.2.y :=
      lt_of_le_of_ne hs2 hbt
    have hd02 : 0 < (t.rasterOrder).2.2.y - (t.rasterOrder).1.y := by linarith
    rcases hsep with ⟨ha, hb, hc⟩ | ⟨ha, hb, hc⟩ | ⟨ha, hb, hc⟩ | ⟨ha, hb, hc⟩)
  · obtain ⟨p0, p1, p2⟩ := rasterOrder_pred t (fun p => p.y ≤ 0) ha hb hc
    rw [fillFlatBottom_ylow w h _ _ _ _ buf p1]
    exact fillFlatTop_ylow w h _ _ _ _ buf p2
  · obtain ⟨p0, p1, p2⟩ := rasterOrder_pred t (fun p => (h : ℚ) ≤ p.y) ha hb hc
    rw [fillFlatBottom_yhigh w h _ _ _ _ buf p0]
    exact fillFlatTop_yhigh w h _ _ _ _ buf p1
  · obtain ⟨p0, p1, p2⟩ := rasterOrder_pred t (fun p => p.x ≤ 0) ha hb hc
    have hv3x : (t.rasterOrder).1.x
        + ((t.rasterOrder).2.1.y - (t.rasterOrder).1.y)
          / ((t.rasterOrder).2.2.y - (t.rasterOrder).1.y)
          * ((t.rasterOrder).2.2.x - (t.rasterOrder).1.x) ≤ 0 := by
      have e : (t.rasterOrder).1.x
          + ((t.rasterOrder).2.1.y - (t.rasterOrder).1.y)
            / ((t.rasterOrder).2.2.y - (t.rasterOrder).1.y)
            * ((t.rasterOrder).2.2.x - (t.rasterOrder).1.x)
          = (t.rasterOrder).1.x
            + ((t.rasterOrder).2.1.y - (t.rasterOrder).1.y)
              * (((t.rasterOrder).2.2.x - (t.rasterOrder).1.x)
                / ((t.rasterOrder).2.2.y - (t.rasterOrder).1.y)) := by ring
      rw [e]
      exact interpolation_le _ _ _ 0 _ hd02 p0 p2 (by linarith) (by linarith)
    have hinner : fillFlatBottom w h (t.rasterOrder).1 (t.rasterOrder).2.1
        ⟨(t.rasterOrder).1.x
          + ((t.rasterOrder).2.1.y - (t.rasterOrder).1.y)
            / ((t.rasterOrder).2.2.y - (t.rasterOrder).1.y)
            * ((t.rasterOrder).2.2.x - (t.rasterOrder).1.x),
          (t.rasterOrder).2.1.y⟩ ((color.toAABBGGRR).1) buf = buf :=
      fillFlatBottom_xlow w h _ _ _ _ buf rfl hs1 p0 p1 hv3x
    rw [hinner]
    exact fillFlatTop_xlow w h _ _ _ _ buf rfl hs2 p1 hv3x p2
  · obtain ⟨p0, p1, p2⟩ := rasterOrder_pred t (fun p => (w : ℚ) ≤ p.x) ha hb hc
    have hv3x : (w : ℚ) ≤ (t.rasterOrder).1.x
        + ((t.rasterOrder).2.1.y - (t.rasterOrder).1.y)
          / ((t.rasterOrder).2.2.y - (t.rasterOrder).1.y)
          * ((t.rasterOrder).2.2.x - (t.rasterOrder).1.x) := by
      have e : (t.rasterOrder).1.x
          + ((t.rasterOrder).2.1.y - (t.rasterOrder).1.y)
            / ((t.rasterOrder).2.2.y - (t.rasterOrder).1.y)
            * ((t.rasterOrder).2.2.x - (t.rasterOrder).1.x)
          = (t.rasterOrder).1.x
            + ((t.rasterOrder).2.1.y - (t.rasterOrder).1.y)
              * (((t.rasterOrder).2.2.x - (t.rasterOrder).1.x)
                / ((t.rasterOrder).2.2.y - (t.rasterOrder).1.y)) := by ring
      rw [e]
      exact interpolation_ge _ _ _ _ _ hd02 p0 p2 (by linarith) (by linarith)
    have hinner : fillFlatBottom w h (t.rasterOrder).1 (t.rasterOrder).2.1
        ⟨(t.rasterOrder).1.x
          + ((t.rasterOrder).2.1.y - (t.rasterOrder).1.y)
            / ((t.rasterOrder).2.2.y - (t.rasterOrder).1.y)
            * ((t.rasterOrder).2.2.x - (t.rasterOrder).1.x),
          (t.rasterOrder).2.1.y⟩ ((color.toAABBGGRR).1) buf = buf :=
      fillFlatBottom_xhigh w h _ _ _ _ buf rfl hs1 p0 p1 hv3x
    rw [hinner]
    exact fillFlatTop_xhigh w h _ _ _ _ buf rfl hs2 p1 hv3x p2
  · obtain ⟨p0, p1, p2⟩ := rasterOrder_pred t (fun p => p.y ≤ 0) ha hb hc
    have hinner : fillFlatBottom w h (t.rasterOrder).1
        ⟨(t.rasterOrder).1.x
          + ((t.rasterOrder).2.1.y - (t.rasterOrder).1.y)
            / ((t.rasterOrder).2.2.y - (t.rasterOrder).1.y)
            * ((t.rasterOrder).2.2.x - (t.rasterOrder).1.x),
          (t.rasterOrder).2.1.y⟩ (t.rasterOrder).2.1 ((color.toAABBGGRR).1) buf
        = buf :=
      fillFlatBottom_ylow w h _ _ _ _ buf p1
    rw [hinner]
    exact fillFlatTop_ylow w h _ _ _ _ buf p2
  · obtain ⟨p0, p1, p2⟩ := rasterOrder_pred t (fun p => (h : ℚ) ≤ p.y) ha hb hc
    rw [fillFlatBottom_yhigh w h _ _ _ _ buf p0]
    have houter : fillFlatTop w h
        ⟨(t.rasterOrder).1.x
          + ((t.rasterOrder).2.1.y - (t.rasterOrder).1.y)
            / ((t.rasterOrder).2.2.y - (t.rasterOrder).1.y)
            * ((t.rasterOrder).2.2.x - (t.rasterOrder).1.x),
          (t.rasterOrder).2.1.y⟩ (t.rasterOrder).2.1 (t.rasterOrder).2.2
        ((color.toAABBGGRR).1) buf = buf :=
      fillFlatTop_yhigh w h _ _ _ _ buf p1
    exact houter
  · obtain ⟨p0, p1, p2⟩ := rasterOrder_pred t (fun p => p.x ≤ 0) ha hb hc
    have hv3x : (t.rasterOrder).1.x
        + ((t.rasterOrder).2.1.y - (t.rasterOrder).1.y)
          / ((t.rasterOrder).2.2.y - (t.rasterOrder).1.y)
          * ((t.rasterOrder).2.2.x - (t.rasterOrder).1.x) ≤ 0 := by
      have e : (t.rasterOrder).1.x
          + ((t.rasterOrder).2.1.y - (t.rasterOrder).1.y)
            / ((t.rasterOrder).2.2.y - (t.rasterOrder).1.y)
            * ((t.rasterOrder).2.2.x - (t.rasterOrder).1.x)
          = (t.rasterOrder).1.x
            + ((t.rasterOrder).2.1.y - (t.rasterOrder).1.y)
              * (((t.rasterOrder).2.2.x - (t.rasterOrder).1.x)
                / ((t.rasterOrder).2.2.y - (t.rasterOrder).1.y)) := by ring
      rw [e]
      exact interpolation_le _ _ _ 0 _ hd02 p0 p2 (by linarith) (by linarith)
    have hinner : fillFlatBottom w h (t.rasterOrder).1
        ⟨(t.rasterOrder).1.x
          + ((t.rasterOrder).2.1.y - (t.rasterOrder).1.y)
            / ((t.rasterOrder).2.2.y - (t.rasterOrder).1.y)
            * ((t.rasterOrder).2.2.x - (t.rasterOrder).1.x),
          (t.rasterOrder).2.1.y⟩ (t.rasterOrder).2.1 ((color.toAABBGGRR).1) buf
        = buf :=
      fillFlatBottom_xlow w h _ _ _ _ buf rfl hs1 p0 hv3x p1
    rw [hinner]
    exact fillFlatTop_xlow w h _ _ _ _ buf rfl hs2 hv3x p1 p2
  · obtain ⟨p0, p1, p2⟩ := rasterOrder_pred t (fun p => (w : ℚ) ≤ p.x) ha hb hc
    have hv3x : (w : ℚ) ≤ (t.rasterOrder).1.x
        + ((t.rasterOrder).2.1.y - (t.rasterOrder).1.y)
          / ((t.rasterOrder).2.2.y - (t.rasterOrder).1.y)
          * ((t.rasterOrder).2.2.x - (t.rasterOrder).1.x) := by
      have e : (t.rasterOrder).1.x
          + ((t.rasterOrder).2.1.y - (t.rasterOrder).1.y)
            / ((t.rasterOrder).2.2.y - (t.rasterOrder).1.y)
            * ((t.rasterOrder).2.2.x - (t.rasterOrder).1.x)
          = (t.rasterOrder).1.x
            + ((t.rasterOrder).2.1.y - (t.rasterOrder).1.y)
              * (((t.rasterOrder).2.2.x - (t.rasterOrder).1.x)
                / ((t.rasterOrder).2.2.y - (t.rasterOrder).1.y)) := by ring
      rw [e]
      exact interpolation_ge _ _ _ _ _ hd02 p0 p2 (by linarith) (by linarith)
    have hinner : fillFlatBottom w h (t.rasterOrder).1
        ⟨(t.rasterOrder).1.x
          + ((t.rasterOrder).2.1.y - (t.rasterOrder).1.y)
            / ((t.rasterOrder).2.2.y - (t.rasterOrder).1.y)
            * ((t.rasterOrder).2.2.x - (t.rasterOrder).1.x),
          (t.rasterOrder).2.1.y⟩ (t.rasterOrder).2.1 ((color.toAABBGGRR).1) buf
        = buf :=
      fillFlatBottom_xhigh w h _ _ _ _ buf rfl hs1 p0 hv3x p1
    rw [hinner]
    exact fillFlatTop_xhigh w h _ _ _ _ buf rfl hs2 hv3x p1 p2

set_option maxRecDepth 100000 in
/-- C8 counterexample: the triangle `(-10,-10), (30,-10), (5,30)` has all
three vertices outside the 10×10 buffer bounds, yet `fillFlatScanline`
covers the whole buffer and changes it — vertices individually off-buffer do
not make the triangle off-buffer. -/
theorem fill_vertices_outside_writes_counterexample :
    (¬(0 ≤ (-10 : ℚ) ∧ (-10 : ℚ) < 10 ∧ 0 ≤ (-10 : ℚ) ∧ (-10 : ℚ) < 10))
    ∧ (¬(0 ≤ (30 : ℚ) ∧ (30 : ℚ) < 10 ∧ 0 ≤ (-10 : ℚ) ∧ (-10 : ℚ) < 10))
    ∧ (¬(0 ≤ (5 : ℚ) ∧ (5 : ℚ) < 10 ∧ 0 ≤ (30 : ℚ) ∧ (30 : ℚ) < 10))
    ∧ fillFlatScanline 10 10 (Triangle2D.mk ⟨-10, -10⟩ ⟨30, -10⟩ ⟨5, 30⟩)
        (Color4.make 255 255 255 255 true) (List.replicate 100 0)
      ≠ List.replicate 100 0 := by
  refine ⟨by decide, by decide, by decide, by decide⟩

/-- C8 witness: the amended theorem applied to the triangle
`(-5,-5), (-3,2), (-1,8)`, which lies entirely left of the 10×10 buffer. -/
theorem fillFlatScanline_offbuffer_unchanged_witness :
    fillFlatScanline 10 10 (Triangle2D.mk ⟨-5, -5⟩ ⟨-3, 2⟩ ⟨-1, 8⟩)
        (Color4.make 255 255 255 255 true) (List.replicate 100 0)
      = List.replicate 100 0 := by
  exact fillFlatScanline_offbuffer_unchanged 10 10
    (Triangle2D.mk ⟨-5, -5⟩ ⟨-3, 2⟩ ⟨-1, 8⟩) (Color4.make 255 255 255 255 true)
    (List.replicate 100 0)
    (Or.inr (Or.inr (Or.inl ⟨by decide, by decide, by decide⟩)))
